import Mathlib

/-!
# Verification of the MRE SDK session multiplexer core

A shallow embedding of the synchronization and multiplexing core of the
mixed-reality-extension SDK:

* `packages/sdk/src/protocols/protocol.ts` — the `Protocol` base class
  (outstanding-reply map, reply timeouts, close semantics);
* `client.ts` (`Client`, with the order-derived `authoritative` getter);
* `session.ts` (`Session`, with the sync cache and its merge operations);
* `syncActor.ts` (the `SyncActor` record shape).

Message payload fragments (actor state, asset definitions) are modelled as
JSON-like trees (`JVal`).  JavaScript objects are modelled as association
lists of fields in property-insertion order, which is the order JS object
iteration and the `deepmerge` result exhibit.  Stateful methods are modelled
as functions from states to states plus a list of observable effects.
-/

namespace MRE

/-- A JSON-like value: the shape of payload fragments exchanged with the app.
Primitives carry a string; JS truthiness is modelled by `truthy` below. -/
inductive JVal where
  | prim (s : String) : JVal
  | arr (elems : List JVal) : JVal
  | obj (fields : List (String × JVal)) : JVal

/-- Key lookup in an association list (first occurrence, like a JS object). -/
def lookupE {α : Type} : List (String × α) → String → Option α
  | [], _ => none
  | (k, v) :: rest, key => if k = key then some v else lookupE rest key

/-- Replace the value at a key, keeping its position; append if absent.
This is JS property assignment `o[k] = v`. -/
def setEntry {α : Type} (l : List (String × α)) (k : String) (v : α) :
    List (String × α) :=
  if (lookupE l k).isSome then
    l.map (fun e => if e.1 = k then (k, v) else e)
  else
    l ++ [(k, v)]

/-- Remove the entry at a key.  This is JS `delete o[k]`. -/
def removeEntry {α : Type} (l : List (String × α)) (k : String) :
    List (String × α) :=
  l.filter (fun e => ¬ (e.1 = k))

theorem lookupE_sizeOf {α : Type} [SizeOf α] {l : List (String × α)} {k : String}
    {v : α} (h : lookupE l k = some v) : sizeOf v < sizeOf l := by
  induction l with
  | nil => simp [lookupE] at h
  | cons e rest ih =>
    match e with
    | (k', v') =>
      simp only [lookupE] at h
      split at h
      · cases h
        simp
        omega
      · have := ih h
        simp
        omega

/-- JS truthiness of a value: the empty string is the falsy primitive;
arrays and objects are always truthy. -/
def truthy : JVal → Bool
  | JVal.prim s => ¬ (s = "")
  | JVal.arr _ => true
  | JVal.obj _ => true

/-- Property access `v.k`: a field lookup on objects, `undefined` otherwise. -/
def getField : JVal → String → Option JVal
  | JVal.obj fields, k => lookupE fields k
  | _, _ => none

/-- Property access chained after a possibly-`undefined` value. -/
def getFieldO : Option JVal → String → Option JVal
  | some v, k => getField v k
  | none, _ => none

/-- Truthiness of a possibly-`undefined` value. -/
def truthyO : Option JVal → Bool
  | some v => truthy v
  | none => false

/-- `delete v.k`: removes the field from an object; no effect otherwise. -/
def deleteField : JVal → String → JVal
  | JVal.obj fields, k => JVal.obj (removeEntry fields k)
  | v, _ => v

/-- In-place mutation of the value stored at a field of an object
(`o.k.… = …` reached through a reference); no effect otherwise. -/
def mapField : JVal → String → (JVal → JVal) → JVal
  | JVal.obj fields, k, f =>
      JVal.obj (fields.map (fun e => if e.1 = k then (e.1, f e.2) else e))
  | v, _, _ => v

/-- Coerce a possibly-`undefined` value to the string used as a map key
(actor and asset ids are strings in the payloads). -/
def jstr : Option JVal → String
  | some (JVal.prim s) => s
  | _ => ""

/-- Coerce a possibly-`undefined` value to an optional identifier,
`none` for absent or falsy values. -/
def jstrOpt : Option JVal → Option String
  | some (JVal.prim s) => if s = "" then none else some s
  | _ => none

mutual

/-- Modelled from the spec: the `deepmerge` npm dependency (not part of this
repository's sources) applied to update payloads, per §4.5: for objects, keys
from the update overlay existing keys and nested objects recurse; arrays in
the update replace arrays in the target; primitive values overwrite. -/
def mergeVal : JVal → JVal → JVal
  | JVal.obj t, JVal.obj s =>
      JVal.obj (overlayO t s ++ s.filter (fun e => (lookupE t e.1).isNone))
  | _, s => s
termination_by a b => (sizeOf b, 0)
decreasing_by
  simp_wf
  omega

/-- Overlay the source fields onto the target fields, keeping the target's
key order: matched keys merge recursively, unmatched target keys survive. -/
def overlayO : List (String × JVal) → List (String × JVal) → List (String × JVal)
  | [], _ => []
  | (k, v) :: rest, s =>
      (k, match h : lookupE s k with
          | some sv => mergeVal v sv
          | none => v) :: overlayO rest s
termination_by t s => (sizeOf s, 1 + sizeOf t)
decreasing_by
  · simp_wf
    have := lookupE_sizeOf h
    omega
  · simp_wf
    omega

end

/-- Membership test on a list of strings. -/
def memS (k : String) : List String → Bool
  | [] => false
  | k' :: rest => k = k' || memS k rest

/-- No duplicate keys in a list of strings. -/
def nodupS : List String → Bool
  | [] => true
  | k :: rest => ¬ (memS k rest) = true && nodupS rest

mutual

/-- Well-formedness of a JSON value as produced by parsing a JS object:
every object reachable through object nesting has pairwise-distinct keys. -/
def wfV : JVal → Bool
  | JVal.prim _ => true
  | JVal.arr _ => true
  | JVal.obj fields => nodupS (fields.map Prod.fst) && wfO fields
termination_by v => sizeOf v
decreasing_by
  all_goals simp_wf
  all_goals omega

/-- All field values of an object are well-formed. -/
def wfO : List (String × JVal) → Bool
  | [] => true
  | (_, v) :: rest => wfV v && wfO rest
termination_by l => sizeOf l
decreasing_by
  all_goals simp_wf
  all_goals omega

end

/-- One overlay step of the deep merge: the source fields rewrite a single
target field in place. -/
def stepO (sf : List (String × JVal)) (e : String × JVal) : String × JVal :=
  (e.1, match lookupE sf e.1 with
        | some sv => mergeVal e.2 sv
        | none => e.2)

/-- The per-entry action of `mapField`. -/
def setAt (k : String) (f : JVal → JVal) (e : String × JVal) : String × JVal :=
  if e.1 = k then (e.1, f e.2) else e

/-- The deletion applied to `transform.local` by the transform-space strip:
drop `position` and `rotation`. -/
def del2 (w : JVal) : JVal :=
  deleteField (deleteField w "position") "rotation"

/-! ## Protocol base (`protocols/protocol.ts`)

The envelope of a protocol-level message is opaque beyond its `id` and
`payload.type`; `replyToId` correlation is carried by the reply-map keys.
An `ExportedPromise` attached to a sent message is identified by a numeric
tag so that resolutions and rejections can be observed as effects. -/

/-- A message envelope as seen by the `Protocol` base class. -/
structure PMessage where
  id : String
  payloadType : String
deriving DecidableEq

/-- One entry of the outstanding-reply map: the attached promise and whether
a reply timer was scheduled for it (`setReplyTimeout` returned a handle). -/
structure QueuedPromise where
  promiseId : Nat
  timeoutScheduled : Bool
deriving DecidableEq

/-- The mutable state of a `Protocol`: its name (used in log/timeout text)
and the outstanding-reply map `conn.promises`, keyed by request id. -/
structure ProtocolState where
  name : String
  promises : List (String × QueuedPromise)
deriving DecidableEq

/-- Externally observable actions of the protocol. -/
inductive PEffect where
  | send (m : PMessage)
  | rejectPromise (promiseId : Nat) (reason : Option String)
  | resolvePromise (promiseId : Nat)
  | closeConnection
deriving DecidableEq

/-- `message.id = message.id || UUID()`: assign a fresh id when absent. -/
def assignId (m : PMessage) (fresh : String) : PMessage :=
  if m.id = "" then { m with id := fresh } else m

/-- Run the `beforeSend` middleware chain; `none` means the message was
dropped by a middleware. -/
def mwChain : List (PMessage → Option PMessage) → PMessage → Option PMessage
  | [], m => some m
  | mw :: rest, m =>
    match mw m with
    | some m' => mwChain rest m'
    | none => none

/-- `Protocol.rejectPromiseForMessage`: if the id is outstanding, clear its
timer, delete the entry, and reject the attached promise. -/
def rejectPromiseForMessage (p : ProtocolState) (messageId : String)
    (reason : Option String) : ProtocolState × List PEffect :=
  match lookupE p.promises messageId with
  | some queuedPromise =>
      ({ p with promises := removeEntry p.promises messageId },
       [PEffect.rejectPromise queuedPromise.promiseId reason])
  | none => (p, [])

/-- The reason string built by the reply timer in `Protocol.sendMessage`. -/
def timeoutReason (p : ProtocolState) (m : PMessage) : String :=
  p.name ++ " timed out awaiting response for " ++ m.payloadType ++
    ", id:" ++ m.id ++ "."

/-- The body of the reply timer scheduled by `Protocol.sendMessage`: on fire
it rejects the outstanding reply with a descriptive reason and closes the
connection. -/
def timeoutFire (p : ProtocolState) (m : PMessage) : ProtocolState × List PEffect :=
  let reason := timeoutReason p m
  let (p1, e1) := rejectPromiseForMessage p m.id (some reason)
  (p1, e1 ++ [PEffect.closeConnection])

/-- `Protocol.sendMessage`: assign an id, run the `beforeSend` middleware
chain (a drop rejects the attached promise and returns), record the
outstanding reply (with a timer when `timeoutSeconds > 0`), and hand the
message to the connection. -/
def sendMessage (p : ProtocolState) (mws : List (PMessage → Option PMessage))
    (m : PMessage) (fresh : String) (promise : Option Nat)
    (timeoutSeconds : Nat) : ProtocolState × List PEffect :=
  let m1 := assignId m fresh
  match mwChain mws m1 with
  | none =>
    match promise with
    | some pid => (p, [PEffect.rejectPromise pid none])
    | none => (p, [])
  | some m2 =>
    match promise with
    | some pid =>
        ({ p with promises :=
            setEntry p.promises m2.id ⟨pid, timeoutSeconds > 0⟩ },
         [PEffect.send m2])
    | none => (p, [PEffect.send m2])

/-- `Protocol.handleReplyMessage`: resolve and remove the matching
outstanding reply; an unknown correlation id is only logged. -/
def handleReplyMessage (p : ProtocolState) (replyToId : String) :
    ProtocolState × List PEffect :=
  match lookupE p.promises replyToId with
  | some queuedPromise =>
      ({ p with promises := removeEntry p.promises replyToId },
       [PEffect.resolvePromise queuedPromise.promiseId])
  | none => (p, [])

/-- `Protocol.onClose`: reject every outstanding reply (over a snapshot of
the keys) with reason `"Connection closed."`. -/
def onClose (p : ProtocolState) : ProtocolState × List PEffect :=
  (p.promises.map Prod.fst).foldl
    (fun acc key =>
      let (p1, e1) := rejectPromiseForMessage acc.1 key (some "Connection closed.")
      (p1, acc.2 ++ e1))
    (p, [])

/-! ## Clients and the session (`client.ts`, `session.ts`, `syncActor.ts`) -/

/-- The protocol currently driving a client (the source tracks this as the
class of `client.protocol`; `closed` is the state after `leave`). -/
inductive Phase where
  | handshake
  | sync
  | execution
  | closed
deriving DecidableEq

/-- A connected engine client: random id, process-wide monotone `order`
(the tie-break for authoritative election), the user bound at handshake,
and its current phase. -/
structure ClientM where
  id : String
  order : Nat
  userId : Option String
  phase : Phase
deriving DecidableEq

/-- An initialize-actor message: envelope id, `payload.type`,
`payload.actor`, and the remaining payload properties kept opaque. -/
structure ActorMsg where
  id : String
  payloadType : String
  actor : JVal
  rest : JVal

/-- The cached record for one actor (`SyncActor`; the list-valued
bookkeeping fields of the source record are not touched by the operations
verified here and are omitted). -/
structure SyncActorM where
  actorId : String
  exclusiveToUser : Option String
  initMessage : ActorMsg

/-- An asset-update message (`payload.asset` carries the patch). -/
structure AssetUpdateMsg where
  id : String
  payloadType : String
  asset : JVal

/-- The cached record for one asset (`SyncAsset`). -/
structure SyncAssetM where
  id : String
  duration : Option Nat
  creatorMessageId : Option String
  update : Option AssetUpdateMsg

/-- A `load-assets` or `create-asset` message (`AssetCreationMessage`):
envelope id, `payload.type`, `payload.containerId`, and, for
`create-asset`, `payload.definition`. -/
structure CreatorMsg where
  id : String
  payloadType : String
  containerId : String
  definition : JVal

/-- A message routed by the session between a client and the app. -/
structure CMsg where
  id : String
  payloadType : String
  payload : JVal

/-- The sync-relevant state owned by a `Session`.  The JS objects keyed by
id are modelled as association lists in insertion order. -/
structure SessionState where
  clientSet : List (String × ClientM)
  actorSet : List (String × SyncActorM)
  assetSet : List (String × SyncAssetM)
  assetCreatorSet : List (String × CreatorMsg)
  peerAuthoritative : Bool

/-- Externally observable actions of the session. -/
inductive SEffect where
  | sendToApp (m : CMsg)
  | userLeftToApp (userId : String)
  | closeAppConnection
  | raisedTypeError

/-- The comparator `(a, b) => a.order - b.order` of the `clients` getter,
as the ordering relation it implements. -/
def byOrder (a b : ClientM) : Prop := a.order ≤ b.order

instance : DecidableRel byOrder := fun a b => Nat.decLe a.order b.order

instance : IsTotal ClientM byOrder := ⟨fun a b => Nat.le_total a.order b.order⟩

instance : IsTrans ClientM byOrder := ⟨fun _ _ _ h1 h2 => Nat.le_trans h1 h2⟩

/-- Sort clients by ascending `order` (a stable sort, like the JS engine's). -/
def sortClients (l : List ClientM) : List ClientM := List.insertionSort byOrder l

/-- `Session.clients`: the values of the client set, ordered by `order`. -/
def clientsOf (s : SessionState) : List ClientM :=
  sortClients (s.clientSet.map Prod.snd)

/-- JS `Array.prototype.findIndex` over clients, matching on `id`:
`-1` when no client matches. -/
def findIndexJs : List ClientM → String → Int
  | [], _ => -1
  | c :: rest, cid =>
      if c.id = cid then 0
      else
        let r := findIndexJs rest cid
        if r < 0 then -1 else r + 1

/-- The `Client.authoritative` getter: a client is authoritative exactly
when it is first in the session's clients sorted by ascending `order`. -/
def authoritativeIn (c : ClientM) (s : SessionState) : Bool :=
  findIndexJs (clientsOf s) c.id = 0

/-- `Session.leave`: remove the client from the set, inform the app when a
user was bound, then consult the departed client's `authoritative` getter
(against the already-shrunk set).  Inside that branch the source calls
`c.isJoined()`, which `Client` does not define, so reaching it raises a
`TypeError` that the surrounding `try` swallows, skipping the last-client
check. -/
def sessionLeave (s : SessionState) (clientId : String) :
    SessionState × List SEffect :=
  let client? := lookupE s.clientSet clientId
  let s1 := { s with clientSet := removeEntry s.clientSet clientId }
  match client? with
  | some client =>
      let effs :=
        match client.userId with
        | some uid => [SEffect.userLeftToApp uid]
        | none => []
      if authoritativeIn client s1 then
        (s1, effs ++ [SEffect.raisedTypeError])
      else if (clientsOf s1).isEmpty then
        (s1, effs ++ [SEffect.closeAppConnection])
      else (s1, effs)
  | none =>
      if (clientsOf s1).isEmpty then (s1, [SEffect.closeAppConnection])
      else (s1, [])

/-- The session-side `beforeReceiveFromClient` hook of a rule: it may read
and mutate the session, and may rewrite or drop the message. -/
def RuleFromClient : Type :=
  SessionState → ClientM → CMsg → SessionState × Option CMsg

/-- `Session.preprocessFromClient`: drop messages from unknown clients;
otherwise, when the payload carries a nonempty type, run the type's
`beforeReceiveFromClient` rule (`MissingRule` is the identity). -/
def preprocessFromClient (rules : String → RuleFromClient) (s : SessionState)
    (client : ClientM) (message : CMsg) : SessionState × Option CMsg :=
  if (lookupE s.clientSet client.id).isNone then (s, none)
  else if ¬ (message.payloadType = "") then rules message.payloadType s client message
  else (s, some message)

/-- `Session.recvFromClient`: preprocess, and forward to the app only when
a message survives. -/
def recvFromClient (rules : String → RuleFromClient) (s : SessionState)
    (client : ClientM) (message : CMsg) : SessionState × List SEffect :=
  let (s1, m?) := preprocessFromClient rules s client message
  match m? with
  | some m => (s1, [SEffect.sendToApp m])
  | none => (s1, [])

/-- `Session.cacheInitializeActorMessage`: create the `SyncActor` when the
actor is unknown (inheriting `exclusiveToUser` from its parent when
present, else from the message; `deepmerge({message}, {})` just clones);
when the actor exists as a reserved placeholder (`x-reserve-actor`), write
the incoming message back as the initialization with its `payload.actor`
replaced by the cached reserved actor state. -/
def cacheInitializeActorMessage (s : SessionState) (message : ActorMsg) :
    SessionState :=
  let actorId := jstr (getField message.actor "id")
  match lookupE s.actorSet actorId with
  | none =>
      let parent := lookupE s.actorSet (jstr (getField message.actor "parentId"))
      let excl :=
        match parent with
        | some p =>
            match p.exclusiveToUser with
            | some u => some u
            | none => jstrOpt (getField message.actor "exclusiveToUser")
        | none => jstrOpt (getField message.actor "exclusiveToUser")
      { s with actorSet := (setEntry s.actorSet actorId
          { actorId := actorId, exclusiveToUser := excl, initMessage := message }) }
  | some syncActor =>
      if syncActor.initMessage.payloadType = "x-reserve-actor" then
        let merged : ActorMsg := { message with actor := syncActor.initMessage.actor }
        { s with actorSet := (setEntry s.actorSet actorId
            { syncActor with initMessage := merged }) }
      else s

/-- The transform-space strip at the end of `cacheActorUpdateMessage`:
if the update carried `transform.app` and the merged cache has a truthy
`transform.local`, delete `local.position` and `local.rotation`; otherwise,
if the update carried `transform.local`, delete `transform.app`. -/
def stripStaleTransform (merged : JVal) (patchActor : JVal) : JVal :=
  let cacheTransform := getField merged "transform"
  let patchTransform := getField patchActor "transform"
  if truthyO patchTransform && truthyO (getFieldO patchTransform "app")
      && truthyO (getFieldO cacheTransform "local") then
    mapField merged "transform" (fun tf =>
      mapField tf "local" (fun lv =>
        deleteField (deleteField lv "position") "rotation"))
  else if truthyO patchTransform && truthyO (getFieldO patchTransform "local") then
    mapField merged "transform" (fun tf => deleteField tf "app")
  else merged

/-- `Session.cacheActorUpdateMessage`: deep-merge the update's actor into
the cached actor, then strip the transform space that was not updated. -/
def cacheActorUpdateMessage (s : SessionState) (message : ActorMsg) :
    SessionState :=
  let actorId := jstr (getField message.actor "id")
  match lookupE s.actorSet actorId with
  | none => s
  | some syncActor =>
      let mergedActor := mergeVal syncActor.initMessage.actor message.actor
      let strippedActor := stripStaleTransform mergedActor message.actor
      { s with actorSet := (setEntry s.actorSet actorId
          { syncActor with initMessage :=
              { syncActor.initMessage with actor := strippedActor } }) }

/-- `Session.cacheAssetCreationRequest`: record the creating message keyed
by its message id. -/
def cacheAssetCreationRequest (s : SessionState) (message : CreatorMsg) :
    SessionState :=
  { s with assetCreatorSet := setEntry s.assetCreatorSet message.id message }

/-- `Session.cacheAssetCreation`: store a fresh `SyncAsset` (only `id`,
`duration`, and then `creatorMessageId` are set on it), then look at the
creator; the guarded roll-in of a buffered update reads `syncAsset.update`
of the record just created.  The returned flag is `true` when the creator
id is unknown, in which case reading `creator.payload.type` raises a
`TypeError` after the asset record was already stored. -/
def cacheAssetCreation (s : SessionState) (assetId : String)
    (creatorId : String) (duration : Option Nat) : SessionState × Bool :=
  let syncAsset : SyncAssetM :=
    { id := assetId, duration := duration,
      creatorMessageId := some creatorId, update := none }
  let s1 := { s with assetSet := setEntry s.assetSet assetId syncAsset }
  match lookupE s.assetCreatorSet creatorId with
  | none => (s1, true)
  | some creator =>
      if creator.payloadType = "create-asset" && syncAsset.update.isSome then
        match syncAsset.update with
        | some upd =>
            let creator' :=
              { creator with definition := mergeVal creator.definition upd.asset }
            ({ s1 with
                assetCreatorSet := setEntry s1.assetCreatorSet creatorId creator',
                assetSet := (setEntry s1.assetSet assetId
                  { syncAsset with update := none }) }, false)
        | none => (s1, false)
      else (s1, false)

/-- `Session.cacheAssetUpdate`: if the owning creator is a `create-asset`,
roll the update into its `definition`; else if an update is already
buffered, deep-merge into it; else buffer the incoming message. -/
def cacheAssetUpdate (s : SessionState) (update : AssetUpdateMsg) :
    SessionState :=
  let assetId := jstr (getField update.asset "id")
  let syncAsset :=
    (lookupE s.assetSet assetId).getD
      { id := assetId, duration := none, creatorMessageId := none, update := none }
  -- `this.assetSet[id] = this.assetSet[id] || ({ id })` stores the record up front
  let s0 := { s with assetSet := setEntry s.assetSet assetId syncAsset }
  -- mutations of `syncAsset.update` below act on the stored record
  let buffer : SessionState :=
    match syncAsset.update with
    | some prev =>
        { s0 with assetSet := (setEntry s0.assetSet assetId
            { syncAsset with update := (some
                { prev with asset := mergeVal prev.asset update.asset }) }) }
    | none =>
        { s0 with assetSet := (setEntry s0.assetSet assetId
            { syncAsset with update := some update }) }
  match syncAsset.creatorMessageId with
  | some mid =>
      match lookupE s0.assetCreatorSet mid with
      | some creator =>
          if creator.payloadType = "create-asset" then
            { s0 with assetCreatorSet := (setEntry s0.assetCreatorSet mid
                { creator with definition := mergeVal creator.definition update.asset }) }
          else buffer
      | none => buffer
  | none => buffer

/-- `Session.cacheAssetUnload`: for every creator of the container, remove
the creation message and every asset whose `creatorMessageId` points to
it (the inner asset list is recomputed from the current state, as the
source re-reads `this.assets` each iteration). -/
def cacheAssetUnload (s : SessionState) (containerId : String) : SessionState :=
  let creators :=
    (s.assetCreatorSet.map Prod.snd).filter (fun c => c.containerId = containerId)
  creators.foldl
    (fun st creator =>
      let st1 := { st with
          assetCreatorSet := removeEntry st.assetCreatorSet creator.id }
      let assets :=
        (st1.assetSet.map Prod.snd).filter
          (fun a => a.creatorMessageId = some creator.id)
      assets.foldl
        (fun st2 a => { st2 with assetSet := removeEntry st2.assetSet a.id })
        st1)
    s

/-- Keys of the JS maps are the ids of the records they store, and are
pairwise distinct — true by construction for JS objects keyed by id. -/
structure SessionWf (s : SessionState) : Prop where
  clientKeys : ∀ e ∈ s.clientSet, e.2.id = e.1
  clientNodup : (s.clientSet.map Prod.fst).Nodup
  creatorKeys : ∀ e ∈ s.assetCreatorSet, e.2.id = e.1
  creatorNodup : (s.assetCreatorSet.map Prod.fst).Nodup
  assetKeys : ∀ e ∈ s.assetSet, e.2.id = e.1
  assetNodup : (s.assetSet.map Prod.fst).Nodup

/-- A concrete update message: patches actor `a` with an app-space
transform. -/
def c3m : ActorMsg :=
  { id := "m1"
    payloadType := "actor-update"
    actor := (JVal.obj [("id", JVal.prim "a"), ("transform",
      JVal.obj [("app", JVal.obj [("position", JVal.prim "P")])])])
    rest := (JVal.obj []) }

/-- A concrete session state caching actor `a` with a local-space
transform. -/
def c3s : SessionState :=
  { clientSet := []
    actorSet := [("a",
      { actorId := "a"
        exclusiveToUser := none
        initMessage :=
          { id := "m0"
            payloadType := "actor-update"
            actor := (JVal.obj [("id", JVal.prim "a"), ("transform",
              JVal.obj [("local", JVal.obj [("position", JVal.prim "p"),
                ("rotation", JVal.prim "r")])])])
            rest := (JVal.obj []) } })]
    assetSet := []
    assetCreatorSet := []
    peerAuthoritative := true }

/-! ## Association-list lemmas -/

theorem lookupE_cons {α : Type} (e : String × α) (rest : List (String × α))
    (key : String) :
    lookupE (e :: rest) key = if e.1 = key then some e.2 else lookupE rest key := by
  obtain ⟨k, v⟩ := e
  rfl

theorem lookupE_eq_none {α : Type} {l : List (String × α)} {k : String} :
    lookupE l k = none ↔ k ∉ l.map Prod.fst := by
  induction l with
  | nil => simp [lookupE]
  | cons e rest ih =>
    rw [lookupE_cons]
    by_cases hek : e.1 = k
    · simp [hek]
    · have hke : ¬ (k = e.1) := fun h => hek h.symm
      rw [if_neg hek, ih, List.map_cons]
      constructor
      · intro h hmem
        rcases List.mem_cons.mp hmem with h1 | h1
        · exact hke h1
        · exact h h1
      · intro h hmem
        exact h (List.mem_cons_of_mem _ hmem)

theorem lookupE_mem {α : Type} {l : List (String × α)} {k : String} {v : α}
    (h : lookupE l k = some v) : (k, v) ∈ l := by
  induction l with
  | nil => simp [lookupE] at h
  | cons e rest ih =>
    simp only [lookupE] at h
    split at h
    · cases h
      simp_all [Prod.ext_iff]
    · simp [ih h]

theorem mem_lookupE {α : Type} {l : List (String × α)} {k : String} {v : α}
    (hnd : (l.map Prod.fst).Nodup) (h : (k, v) ∈ l) : lookupE l k = some v := by
  induction l with
  | nil => simp at h
  | cons e rest ih =>
    simp only [List.map_cons, List.nodup_cons] at hnd
    simp only [List.mem_cons] at h
    rcases h with h | h
    · simp [lookupE, ← h]
    · have hk : ¬ (e.1 = k) := by
        intro hek
        exact hnd.1 (hek ▸ (List.mem_map.mpr ⟨(k, v), h, rfl⟩))
      simp [lookupE, hk, ih hnd.2 h]

theorem lookupE_append {α : Type} (l1 l2 : List (String × α)) (k : String) :
    lookupE (l1 ++ l2) k =
      match lookupE l1 k with
      | some v => some v
      | none => lookupE l2 k := by
  induction l1 with
  | nil => simp [lookupE]
  | cons e rest ih =>
    rw [List.cons_append, lookupE_cons, lookupE_cons]
    by_cases hek : e.1 = k
    · simp [hek]
    · simp [hek, ih]

theorem lookupE_mapSet {α : Type} (l : List (String × α)) (k k' : String) (v : α) :
    lookupE (l.map (fun e => if e.1 = k then (k, v) else e)) k' =
      if k' = k then (lookupE l k).map (fun _ => v) else lookupE l k' := by
  induction l with
  | nil => simp [lookupE]
  | cons e rest ih =>
    rw [List.map_cons, lookupE_cons, lookupE_cons]
    by_cases hek : e.1 = k
    · rw [if_pos hek]
      by_cases hkk : k' = k
      · simp [hkk, hek]
      · have hkk2 : ¬ (k = k') := fun h => hkk h.symm
        rw [lookupE_cons]
        have hek2 : ¬ (e.1 = k') := hek.symm ▸ hkk2
        simp [hkk, hkk2, hek2, ih]
    · rw [if_neg hek]
      by_cases hek' : e.1 = k'
      · have hkk : ¬ (k' = k) := fun h => hek (h ▸ hek')
        rw [lookupE_cons]
        simp [hek', hkk]
      · rw [lookupE_cons, if_neg hek', ih]
        simp [hek, hek']

theorem lookupE_setEntry_self {α : Type} (l : List (String × α)) (k : String)
    (v : α) : lookupE (setEntry l k v) k = some v := by
  unfold setEntry
  split
  · rename_i hsome
    rw [lookupE_mapSet, if_pos rfl]
    obtain ⟨w, hw⟩ := Option.isSome_iff_exists.mp hsome
    simp [hw]
  · rename_i hnone
    rw [lookupE_append]
    rw [Option.not_isSome_iff_eq_none] at hnone
    simp [hnone, lookupE]

theorem lookupE_setEntry_ne {α : Type} (l : List (String × α)) (k k' : String)
    (v : α) (hne : ¬ (k' = k)) : lookupE (setEntry l k v) k' = lookupE l k' := by
  unfold setEntry
  split
  · rw [lookupE_mapSet, if_neg hne]
  · rename_i hnone
    rw [lookupE_append]
    rw [Option.not_isSome_iff_eq_none] at hnone
    cases hlk : lookupE l k' with
    | some w => simp
    | none =>
        have : ¬ (k = k') := fun h => hne h.symm
        simp [lookupE, this]

theorem lookupE_filterP {α : Type} (p : String → Bool) (l : List (String × α))
    (k : String) :
    lookupE (l.filter (fun e => p e.1)) k = if p k then lookupE l k else none := by
  induction l with
  | nil => simp [lookupE]
  | cons e rest ih =>
    by_cases hpe : p e.1
    · rw [List.filter_cons_of_pos (by simpa using hpe), lookupE_cons, lookupE_cons]
      by_cases hek : e.1 = k
      · simp [hek, hek ▸ hpe]
      · simp [hek, ih]
    · rw [List.filter_cons_of_neg (by simpa using hpe), lookupE_cons, ih]
      by_cases hek : e.1 = k
      · simp [← hek, hpe]
      · simp [hek]

theorem lookupE_removeEntry_self {α : Type} (l : List (String × α)) (k : String) :
    lookupE (removeEntry l k) k = none := by
  unfold removeEntry
  rw [lookupE_filterP (fun x => decide (¬ (x = k)))]
  simp

theorem lookupE_removeEntry_ne {α : Type} (l : List (String × α)) (k k' : String)
    (hne : ¬ (k' = k)) : lookupE (removeEntry l k) k' = lookupE l k' := by
  unfold removeEntry
  rw [lookupE_filterP (fun x => decide (¬ (x = k)))]
  simp [hne]

theorem removeEntry_of_not_mem {α : Type} {l : List (String × α)} {k : String}
    (h : k ∉ l.map Prod.fst) : removeEntry l k = l := by
  unfold removeEntry
  apply List.filter_eq_self.mpr
  intro e he
  have : e.1 ∈ l.map Prod.fst := List.mem_map.mpr ⟨e, he, rfl⟩
  simp only [decide_eq_true_eq]
  intro hek
  exact h (hek ▸ this)

/-! ## Protocol claims -/

theorem removeEntry_cons_self {α : Type} (k : String) (v : α)
    (rest : List (String × α)) (h : k ∉ rest.map Prod.fst) :
    removeEntry ((k, v) :: rest) k = rest := by
  unfold removeEntry
  rw [List.filter_cons_of_neg (by simp)]
  exact removeEntry_of_not_mem h

theorem onClose_aux :
    ∀ (l : List (String × QueuedPromise)) (p : ProtocolState) (acc : List PEffect),
    p.promises = l → (l.map Prod.fst).Nodup →
    (l.map Prod.fst).foldl
      (fun acc2 key =>
        let (p1, e1) := rejectPromiseForMessage acc2.1 key (some "Connection closed.")
        (p1, acc2.2 ++ e1))
      (p, acc)
    = ({ p with promises := [] },
       acc ++ l.map
         (fun e => PEffect.rejectPromise e.2.promiseId (some "Connection closed."))) := by
  intro l
  induction l with
  | nil =>
    intro p acc hp _
    obtain ⟨nm, ps⟩ := p
    simp only at hp
    subst hp
    simp
  | cons e rest ih =>
    intro p acc hp hnd
    obtain ⟨k, qp⟩ := e
    simp only [List.map_cons, List.nodup_cons] at hnd
    have h1 : lookupE p.promises k = some qp := by
      rw [hp, lookupE_cons]
      simp
    have h2 : removeEntry p.promises k = rest := by
      rw [hp]
      exact removeEntry_cons_self k qp rest hnd.1
    have hstep : rejectPromiseForMessage p k (some "Connection closed.")
        = ({ p with promises := rest },
           [PEffect.rejectPromise qp.promiseId (some "Connection closed.")]) := by
      simp only [rejectPromiseForMessage, h1, h2]
    rw [List.map_cons, List.foldl_cons]
    simp only [hstep]
    rw [ih { p with promises := rest } (acc ++ [PEffect.rejectPromise qp.promiseId
        (some "Connection closed.")]) rfl hnd.2]
    simp

/-- C5: when the connection emits `close`, every entry of the
outstanding-reply map is rejected with reason `"Connection closed."` and
removed, leaving the map empty. -/
theorem onClose_rejects_all_and_empties (p : ProtocolState)
    (hnd : (p.promises.map Prod.fst).Nodup) :
    (onClose p).1.promises = [] ∧
    (onClose p).2 = p.promises.map
      (fun e => PEffect.rejectPromise e.2.promiseId (some "Connection closed.")) := by
  unfold onClose
  rw [onClose_aux p.promises p [] rfl hnd]
  simp

/-- Witness for C5 at a concrete two-entry reply map. -/
theorem onClose_rejects_all_and_empties_witness :
    ((([("a", ⟨1, false⟩), ("b", ⟨2, true⟩)] :
        List (String × QueuedPromise)).map Prod.fst).Nodup) ∧
    (onClose ⟨"ClientExecution", [("a", ⟨1, false⟩), ("b", ⟨2, true⟩)]⟩).1.promises
      = [] ∧
    (onClose ⟨"ClientExecution", [("a", ⟨1, false⟩), ("b", ⟨2, true⟩)]⟩).2
      = [PEffect.rejectPromise 1 (some "Connection closed."),
         PEffect.rejectPromise 2 (some "Connection closed.")] :=
  ⟨by decide,
   (onClose_rejects_all_and_empties ⟨"ClientExecution",
      [("a", ⟨1, false⟩), ("b", ⟨2, true⟩)]⟩ (by decide)).1,
   by
     have h := (onClose_rejects_all_and_empties ⟨"ClientExecution",
        [("a", ⟨1, false⟩), ("b", ⟨2, true⟩)]⟩ (by decide)).2
     rw [h]
     decide⟩

/-- C4: a message sent with an attached reply promise and
`timeoutSeconds > 0` records an outstanding reply with a scheduled timer;
if that timer fires while the reply is still outstanding, the reply is
rejected with a reason containing the message's payload type, its entry is
removed from the outstanding-reply map, and the connection is closed. -/
theorem sendMessage_timeout_rejects (p : ProtocolState)
    (mws : List (PMessage → Option PMessage)) (m m2 : PMessage) (fresh : String)
    (pid : Nat) (t : Nat) (ht : 0 < t)
    (hmw : mwChain mws (assignId m fresh) = some m2) :
    lookupE (sendMessage p mws m fresh (some pid) t).1.promises m2.id
      = some ⟨pid, true⟩ ∧
    ∀ (q : ProtocolState) (qp : QueuedPromise),
      lookupE q.promises m2.id = some qp →
      lookupE (timeoutFire q m2).1.promises m2.id = none ∧
      (timeoutFire q m2).2
        = [PEffect.rejectPromise qp.promiseId (some (timeoutReason q m2)),
           PEffect.closeConnection] ∧
      ∃ a b, timeoutReason q m2 = a ++ m2.payloadType ++ b := by
  constructor
  · simp only [sendMessage, hmw]
    rw [lookupE_setEntry_self]
    simp [ht]
  · intro q qp hq
    refine ⟨?_, ?_, ?_⟩
    · simp [timeoutFire, rejectPromiseForMessage, hq, lookupE_removeEntry_self]
    · simp [timeoutFire, rejectPromiseForMessage, hq]
    · refine ⟨q.name ++ " timed out awaiting response for ",
        ", id:" ++ m2.id ++ ".", ?_⟩
      simp [timeoutReason, String.append_assoc]

/-- Witness for C4: a handshake request with a five-second timeout, and the
timer firing on the protocol state holding its outstanding reply. -/
theorem sendMessage_timeout_rejects_witness :
    0 < 5 ∧
    mwChain [] (assignId ⟨"", "handshake"⟩ "u1") = some ⟨"u1", "handshake"⟩ ∧
    lookupE (sendMessage ⟨"ClientHandshake", []⟩ [] ⟨"", "handshake"⟩ "u1"
      (some 7) 5).1.promises "u1" = some ⟨7, true⟩ ∧
    lookupE (⟨"ClientHandshake", [("u1", ⟨7, true⟩)]⟩ :
      ProtocolState).promises "u1" = some ⟨7, true⟩ ∧
    (timeoutFire ⟨"ClientHandshake", [("u1", ⟨7, true⟩)]⟩ ⟨"u1", "handshake"⟩).2
      = [PEffect.rejectPromise 7
          (some "ClientHandshake timed out awaiting response for handshake, id:u1."),
         PEffect.closeConnection] :=
  ⟨by decide, by rfl,
   (sendMessage_timeout_rejects ⟨"ClientHandshake", []⟩ [] ⟨"", "handshake"⟩
      ⟨"u1", "handshake"⟩ "u1" 7 5 (by decide) (by rfl)).1,
   by rfl,
   by
     have h := ((sendMessage_timeout_rejects ⟨"ClientHandshake", []⟩ []
        ⟨"", "handshake"⟩ ⟨"u1", "handshake"⟩ "u1" 7 5 (by decide) (by rfl)).2
        ⟨"ClientHandshake", [("u1", ⟨7, true⟩)]⟩ ⟨7, true⟩ (by rfl)).2.1
     rw [h]
     decide⟩

/-! ## Session routing claims -/

/-- C10: a message received from a client whose id is not present in the
session's client set is dropped by `preprocessFromClient`, so
`recvFromClient` produces no send-to-app effect and leaves the session
state unchanged. -/
theorem recvFromClient_unknown_client_dropped
    (rules : String → RuleFromClient) (s : SessionState) (client : ClientM)
    (message : CMsg) (h : lookupE s.clientSet client.id = none) :
    preprocessFromClient rules s client message = (s, none) ∧
    recvFromClient rules s client message = (s, []) := by
  refine ⟨?_, ?_⟩ <;>
    simp [preprocessFromClient, recvFromClient, h]

/-- Witness for C10: an unknown client against an empty session. -/
theorem recvFromClient_unknown_client_dropped_witness :
    lookupE (SessionState.mk [] [] [] [] true).clientSet "c1" = none ∧
    recvFromClient (fun _ => fun s _ m => (s, some m))
      (SessionState.mk [] [] [] [] true)
      ⟨"c1", 0, none, Phase.execution⟩ ⟨"m1", "heartbeat", JVal.obj []⟩
      = (SessionState.mk [] [] [] [] true, []) :=
  ⟨rfl,
   (recvFromClient_unknown_client_dropped (fun _ => fun s _ m => (s, some m))
      (SessionState.mk [] [] [] [] true)
      ⟨"c1", 0, none, Phase.execution⟩ ⟨"m1", "heartbeat", JVal.obj []⟩ rfl).2⟩

/-! ## Authoritative-election claims -/

theorem findIndexJs_eq_zero {l : List ClientM} {cid : String}
    (h : findIndexJs l cid = 0) :
    ∃ c rest, l = c :: rest ∧ c.id = cid := by
  cases l with
  | nil => simp [findIndexJs] at h
  | cons c rest =>
    by_cases hc : c.id = cid
    · exact ⟨c, rest, rfl, hc⟩
    · exfalso
      simp only [findIndexJs, hc, ite_false, if_neg hc] at h
      split at h <;> omega

theorem findIndexJs_cons_self (c : ClientM) (rest : List ClientM) :
    findIndexJs (c :: rest) c.id = 0 := by
  simp [findIndexJs]

/-- The members of `clientsOf` are exactly the values of the client set. -/
theorem clientsOf_perm (s : SessionState) :
    (clientsOf s).Perm (s.clientSet.map Prod.snd) :=
  List.perm_insertionSort byOrder _

/-- Under the session invariants the ids of the session's clients are
pairwise distinct. -/
theorem clientsOf_nodup_ids (s : SessionState) (hk : ∀ e ∈ s.clientSet, e.2.id = e.1)
    (hnd : (s.clientSet.map Prod.fst).Nodup) :
    ((clientsOf s).map (fun c => c.id)).Nodup := by
  have hperm : ((clientsOf s).map (fun c => c.id)).Perm
      ((s.clientSet.map Prod.snd).map (fun c => c.id)) :=
    (clientsOf_perm s).map _
  rw [hperm.nodup_iff]
  have : (s.clientSet.map Prod.snd).map (fun c => c.id) = s.clientSet.map Prod.fst := by
    rw [List.map_map]
    exact List.map_congr_left (fun e he => hk e he)
  rw [this]
  exact hnd

/-- C8: in every session state satisfying the map invariants (as all
reachable states do, the client set being a JS object keyed by client id),
with `peerAuthoritative` on, at most one client of the session is
`authoritative`: any two authoritative members of `Session.clients`
coincide. -/
theorem authoritative_at_most_one (s : SessionState) (hwf : SessionWf s)
    (hpeer : s.peerAuthoritative = true) (c1 c2 : ClientM)
    (h1 : c1 ∈ clientsOf s) (h2 : c2 ∈ clientsOf s)
    (a1 : authoritativeIn c1 s = true) (a2 : authoritativeIn c2 s = true) :
    c1 = c2 := by
  unfold authoritativeIn at a1 a2
  rw [decide_eq_true_eq] at a1 a2
  obtain ⟨h, rest, hl, hid1⟩ := findIndexJs_eq_zero a1
  obtain ⟨h', rest', hl', hid2⟩ := findIndexJs_eq_zero a2
  rw [hl] at hl'
  cases hl'
  have hnd := clientsOf_nodup_ids s hwf.clientKeys hwf.clientNodup
  exact List.inj_on_of_nodup_map hnd h1 h2 (hid1.symm.trans hid2)

/-- Witness for C8: a concrete two-client session. -/
theorem authoritative_at_most_one_witness :
    SessionWf (SessionState.mk
      [("a", ⟨"a", 0, none, Phase.execution⟩), ("b", ⟨"b", 1, none, Phase.sync⟩)]
      [] [] [] true) ∧
    authoritativeIn ⟨"a", 0, none, Phase.execution⟩
      (SessionState.mk
        [("a", ⟨"a", 0, none, Phase.execution⟩), ("b", ⟨"b", 1, none, Phase.sync⟩)]
        [] [] [] true) = true ∧
    (⟨"a", 0, none, Phase.execution⟩ : ClientM) = ⟨"a", 0, none, Phase.execution⟩ :=
  ⟨⟨by decide, by decide, by decide, by decide, by decide, by decide⟩,
   by decide,
   authoritative_at_most_one
     (SessionState.mk
       [("a", ⟨"a", 0, none, Phase.execution⟩), ("b", ⟨"b", 1, none, Phase.sync⟩)]
       [] [] [] true)
     ⟨by decide, by decide, by decide, by decide, by decide, by decide⟩ rfl
     ⟨"a", 0, none, Phase.execution⟩ ⟨"a", 0, none, Phase.execution⟩
     (by decide) (by decide) (by decide) (by decide)⟩
/-- Only the client-set removal of `Session.leave` affects the state; every
branch returns the shrunken session. -/
theorem sessionLeave_fst (s : SessionState) (cid : String) :
    (sessionLeave s cid).1 = { s with clientSet := removeEntry s.clientSet cid } := by
  unfold sessionLeave
  cases lookupE s.clientSet cid with
  | none =>
      simp only
      split <;> rfl
  | some c =>
      simp only
      split
      · rfl
      · split <;> rfl

/-- C2 counterexample: clients `a` (order 0, Execution, authoritative),
`b` (order 1, still in Handshake), `c` (order 2, Execution).  After `a`
leaves, the claim elects `c` — the least-order remaining client in
Execution phase — but the code's order-computed `authoritative` getter
makes `b` authoritative even though `b` has not reached Execution. -/
theorem leave_phase_filter_counterexample :
    (SessionState.mk
      [("a", ⟨"a", 0, none, Phase.execution⟩),
       ("b", ⟨"b", 1, none, Phase.handshake⟩),
       ("c", ⟨"c", 2, none, Phase.execution⟩)] [] [] [] true).peerAuthoritative
      = true ∧
    authoritativeIn ⟨"a", 0, none, Phase.execution⟩
      (SessionState.mk
        [("a", ⟨"a", 0, none, Phase.execution⟩),
         ("b", ⟨"b", 1, none, Phase.handshake⟩),
         ("c", ⟨"c", 2, none, Phase.execution⟩)] [] [] [] true) = true ∧
    authoritativeIn ⟨"c", 2, none, Phase.execution⟩
      (sessionLeave (SessionState.mk
        [("a", ⟨"a", 0, none, Phase.execution⟩),
         ("b", ⟨"b", 1, none, Phase.handshake⟩),
         ("c", ⟨"c", 2, none, Phase.execution⟩)] [] [] [] true) "a").1 = false ∧
    authoritativeIn ⟨"b", 1, none, Phase.handshake⟩
      (sessionLeave (SessionState.mk
        [("a", ⟨"a", 0, none, Phase.execution⟩),
         ("b", ⟨"b", 1, none, Phase.handshake⟩),
         ("c", ⟨"c", 2, none, Phase.execution⟩)] [] [] [] true) "a").1 = true := by
  decide

/-- C2 (amended): when a client leaves a peer-authoritative session, the
client that is authoritative afterwards is the one with the smallest
`Client.order` among all remaining clients, regardless of phase — the
`authoritative` getter is computed from `order` alone, and the
phase-filtered election in `Session.leave` never takes effect. -/
theorem leave_min_order_is_authoritative (s : SessionState) (cid : String)
    (c : ClientM) (hwf : SessionWf s) (hpeer : s.peerAuthoritative = true)
    (hc : lookupE s.clientSet cid = some c)
    (hauth : authoritativeIn c s = true)
    (horder : (s.clientSet.map (fun e => e.2.order)).Nodup)
    (d : ClientM) (hd : d ∈ clientsOf (sessionLeave s cid).1) :
    authoritativeIn d (sessionLeave s cid).1 = true ↔
      ∀ d2 ∈ clientsOf (sessionLeave s cid).1, d.order ≤ d2.order := by
  rw [sessionLeave_fst] at hd ⊢
  set s' : SessionState := { s with clientSet := removeEntry s.clientSet cid } with hs'
  have hkeys' : ∀ e ∈ s'.clientSet, e.2.id = e.1 := by
    intro e he
    exact hwf.clientKeys e (List.mem_of_mem_filter he)
  have hnd' : (s'.clientSet.map Prod.fst).Nodup := by
    have hsub : s'.clientSet.Sublist s.clientSet := List.filter_sublist _
    exact (hsub.map Prod.fst).nodup hwf.clientNodup
  have hido : ((clientsOf s').map (fun x => x.id)).Nodup :=
    clientsOf_nodup_ids s' hkeys' hnd'
  have hordo : ((clientsOf s').map (fun x => x.order)).Nodup := by
    have hperm : ((clientsOf s').map (fun x => x.order)).Perm
        ((s'.clientSet.map Prod.snd).map (fun x => x.order)) :=
      (clientsOf_perm s').map _
    rw [hperm.nodup_iff, List.map_map]
    have hsub : s'.clientSet.Sublist s.clientSet := List.filter_sublist _
    exact (hsub.map (fun e => e.2.order)).nodup horder
  have hsorted : List.Sorted byOrder (clientsOf s') :=
    List.sorted_insertionSort byOrder _
  cases hsplit : clientsOf s' with
  | nil => rw [hsplit] at hd; simp at hd
  | cons h t =>
    rw [hsplit] at hd hido hordo hsorted
    have hmin : ∀ x ∈ t, h.order ≤ x.order := by
      intro x hx
      exact (List.sorted_cons.mp hsorted).1 x hx
    unfold authoritativeIn
    rw [hsplit, decide_eq_true_eq]
    constructor
    · intro hfi
      obtain ⟨c0, rest0, heq, hcid⟩ := findIndexJs_eq_zero hfi
      cases heq
      have hdh : d = h :=
        List.inj_on_of_nodup_map hido hd (List.mem_cons_self h t) hcid.symm
      subst hdh
      intro d2 hd2
      rcases List.mem_cons.mp hd2 with h2 | h2
      · rw [h2]
      · exact hmin d2 h2
    · intro hminall
      have hhd : d = h := by
        rcases List.mem_cons.mp hd with h2 | h2
        · exact h2
        · have h1 : h.order ≤ d.order := hmin d h2
          have h2' : d.order ≤ h.order := hminall h (List.mem_cons_self h t)
          exact List.inj_on_of_nodup_map hordo hd (List.mem_cons_self h t)
            (Nat.le_antisymm h2' h1)
      subst hhd
      exact findIndexJs_cons_self d t

/-- Witness for the amended C2: after the authoritative `a` leaves, `b`
(order 1, Handshake) is authoritative, being least by order. -/
theorem leave_min_order_is_authoritative_witness :
    lookupE (SessionState.mk
      [("a", ⟨"a", 0, none, Phase.execution⟩),
       ("b", ⟨"b", 1, none, Phase.handshake⟩),
       ("c", ⟨"c", 2, none, Phase.execution⟩)] [] [] [] true).clientSet "a"
      = some ⟨"a", 0, none, Phase.execution⟩ ∧
    (authoritativeIn ⟨"b", 1, none, Phase.handshake⟩
      (sessionLeave (SessionState.mk
        [("a", ⟨"a", 0, none, Phase.execution⟩),
         ("b", ⟨"b", 1, none, Phase.handshake⟩),
         ("c", ⟨"c", 2, none, Phase.execution⟩)] [] [] [] true) "a").1 = true ↔
      ∀ d2 ∈ clientsOf (sessionLeave (SessionState.mk
        [("a", ⟨"a", 0, none, Phase.execution⟩),
         ("b", ⟨"b", 1, none, Phase.handshake⟩),
         ("c", ⟨"c", 2, none, Phase.execution⟩)] [] [] [] true) "a").1,
        (⟨"b", 1, none, Phase.handshake⟩ : ClientM).order ≤ d2.order) :=
  ⟨by decide,
   leave_min_order_is_authoritative
     (SessionState.mk
       [("a", ⟨"a", 0, none, Phase.execution⟩),
        ("b", ⟨"b", 1, none, Phase.handshake⟩),
        ("c", ⟨"c", 2, none, Phase.execution⟩)] [] [] [] true) "a"
     ⟨"a", 0, none, Phase.execution⟩
     ⟨by decide, by decide, by decide, by decide, by decide, by decide⟩
     rfl (by decide) (by decide) (by decide)
     ⟨"b", 1, none, Phase.handshake⟩ (by decide)⟩
/-! ## Sync-cache claims: reserved actors and asset creation -/

/-- C9: an initialize-actor message for an actor cached as a reserved
placeholder (`x-reserve-actor`) replaces the cached initialization message
by the incoming message, with the payload's `actor` swapped for the cached
reserved actor state; the rest of the `SyncActor` record (and with it
bookkeeping such as `exclusiveToUser`) is untouched, as are other actors. -/
theorem cacheInitialize_reserved_overlay (s : SessionState) (m : ActorMsg)
    (sa : SyncActorM)
    (hlk : lookupE s.actorSet (jstr (getField m.actor "id")) = some sa)
    (hres : sa.initMessage.payloadType = "x-reserve-actor") :
    (cacheInitializeActorMessage s m).actorSet
      = setEntry s.actorSet (jstr (getField m.actor "id"))
          { sa with initMessage := { m with actor := sa.initMessage.actor } } ∧
    lookupE (cacheInitializeActorMessage s m).actorSet
        (jstr (getField m.actor "id"))
      = some { sa with initMessage := { m with actor := sa.initMessage.actor } } ∧
    ∀ k, ¬ (k = jstr (getField m.actor "id")) →
      lookupE (cacheInitializeActorMessage s m).actorSet k = lookupE s.actorSet k := by
  refine ⟨?_, ?_, ?_⟩
  · simp [cacheInitializeActorMessage, hlk, hres]
  · simp [cacheInitializeActorMessage, hlk, hres, lookupE_setEntry_self]
  · intro k hk
    simp [cacheInitializeActorMessage, hlk, hres, lookupE_setEntry_ne _ _ _ _ hk]

/-- Witness for C9: a reserved actor `A1` (exclusive to user `U1`, recorded
both on the record and in the reserved actor state) overlaid by a
`create-actor` message carrying fresh actor state. -/
theorem cacheInitialize_reserved_overlay_witness :
    lookupE (SessionState.mk [] [("A1",
        ⟨"A1", some "U1",
         ⟨"msg0", "x-reserve-actor",
          JVal.obj [("id", JVal.prim "A1"), ("exclusiveToUser", JVal.prim "U1")],
          JVal.obj []⟩⟩)] [] [] true).actorSet
      (jstr (getField (JVal.obj [("id", JVal.prim "A1"),
        ("transform", JVal.obj [])]) "id"))
      = some ⟨"A1", some "U1",
          ⟨"msg0", "x-reserve-actor",
           JVal.obj [("id", JVal.prim "A1"), ("exclusiveToUser", JVal.prim "U1")],
           JVal.obj []⟩⟩ ∧
    lookupE (cacheInitializeActorMessage (SessionState.mk [] [("A1",
        ⟨"A1", some "U1",
         ⟨"msg0", "x-reserve-actor",
          JVal.obj [("id", JVal.prim "A1"), ("exclusiveToUser", JVal.prim "U1")],
          JVal.obj []⟩⟩)] [] [] true)
        ⟨"msg1", "create-actor",
         JVal.obj [("id", JVal.prim "A1"), ("transform", JVal.obj [])],
         JVal.obj []⟩).actorSet "A1"
      = some ⟨"A1", some "U1",
          ⟨"msg1", "create-actor",
           JVal.obj [("id", JVal.prim "A1"), ("exclusiveToUser", JVal.prim "U1")],
           JVal.obj []⟩⟩ :=
  ⟨rfl,
   (cacheInitialize_reserved_overlay (SessionState.mk [] [("A1",
      ⟨"A1", some "U1",
       ⟨"msg0", "x-reserve-actor",
        JVal.obj [("id", JVal.prim "A1"), ("exclusiveToUser", JVal.prim "U1")],
        JVal.obj []⟩⟩)] [] [] true)
      ⟨"msg1", "create-actor",
       JVal.obj [("id", JVal.prim "A1"), ("transform", JVal.obj [])],
       JVal.obj []⟩
      ⟨"A1", some "U1",
       ⟨"msg0", "x-reserve-actor",
        JVal.obj [("id", JVal.prim "A1"), ("exclusiveToUser", JVal.prim "U1")],
        JVal.obj []⟩⟩ rfl rfl).2.1⟩

/-- C6 (failing input): a `create-asset` creator `M1` is cached, an update
for asset `X` arrives while the create is in flight and is buffered; then
the creation reply is processed.  The code stores the fresh `SyncAsset`
(so the buffered update is gone) but the dead guard `syncAsset.update` on
the just-created record never fires, so `M1.payload.definition` is NOT
deep-merged with the buffered update's `asset`, contradicting the claim
and the comment in the source. -/
theorem cacheAssetCreation_drops_buffered_update :
    lookupE (cacheAssetUpdate
        (cacheAssetCreationRequest (SessionState.mk [] [] [] [] true)
          ⟨"M1", "create-asset", "CT1", JVal.obj []⟩)
        ⟨"U1", "asset-update",
         JVal.obj [("id", JVal.prim "X"), ("color", JVal.prim "red")]⟩).assetSet "X"
      = some ⟨"X", none, none,
          some ⟨"U1", "asset-update",
            JVal.obj [("id", JVal.prim "X"), ("color", JVal.prim "red")]⟩⟩ ∧
    (cacheAssetCreation (cacheAssetUpdate
        (cacheAssetCreationRequest (SessionState.mk [] [] [] [] true)
          ⟨"M1", "create-asset", "CT1", JVal.obj []⟩)
        ⟨"U1", "asset-update",
         JVal.obj [("id", JVal.prim "X"), ("color", JVal.prim "red")]⟩)
      "X" "M1" (some 5)).2 = false ∧
    lookupE (cacheAssetCreation (cacheAssetUpdate
        (cacheAssetCreationRequest (SessionState.mk [] [] [] [] true)
          ⟨"M1", "create-asset", "CT1", JVal.obj []⟩)
        ⟨"U1", "asset-update",
         JVal.obj [("id", JVal.prim "X"), ("color", JVal.prim "red")]⟩)
      "X" "M1" (some 5)).1.assetSet "X"
      = some ⟨"X", some 5, some "M1", none⟩ ∧
    lookupE (cacheAssetCreation (cacheAssetUpdate
        (cacheAssetCreationRequest (SessionState.mk [] [] [] [] true)
          ⟨"M1", "create-asset", "CT1", JVal.obj []⟩)
        ⟨"U1", "asset-update",
         JVal.obj [("id", JVal.prim "X"), ("color", JVal.prim "red")]⟩)
      "X" "M1" (some 5)).1.assetCreatorSet "M1"
      = some ⟨"M1", "create-asset", "CT1", JVal.obj []⟩ ∧
    ¬ (JVal.obj [] = mergeVal (JVal.obj [])
        (JVal.obj [("id", JVal.prim "X"), ("color", JVal.prim "red")])) := by
  refine ⟨rfl, rfl, rfl, rfl, ?_⟩
  intro h
  rw [show mergeVal (JVal.obj [])
      (JVal.obj [("id", JVal.prim "X"), ("color", JVal.prim "red")])
      = JVal.obj [("id", JVal.prim "X"), ("color", JVal.prim "red")] by
    simp [mergeVal, overlayO, lookupE]] at h
  simp at h
/-! ## Asset unload (C7) -/

theorem foldl_removeAssets (as : List SyncAssetM) :
    ∀ (st : SessionState),
    as.foldl (fun st2 a => { st2 with assetSet := removeEntry st2.assetSet a.id }) st
      = { st with assetSet := (st.assetSet.filter
          (fun e => as.all (fun a => ¬ (e.1 = a.id)))) } := by
  induction as with
  | nil =>
    intro st
    simp
  | cons a rest ih =>
    intro st
    rw [List.foldl_cons, ih]
    have : ∀ (l : List (String × SyncAssetM)),
        (removeEntry l a.id).filter (fun e => rest.all (fun a2 => ¬ (e.1 = a2.id)))
        = l.filter (fun e => (a :: rest).all (fun a2 => ¬ (e.1 = a2.id))) := by
      intro l
      unfold removeEntry
      rw [List.filter_filter]
      apply List.filter_congr
      intro e _
      simp [List.all_cons, Bool.and_comm]
    simp only [this]

/-- Dropping, from the current state, every asset whose `creatorMessageId`
is the dropped creator's id amounts to filtering the asset map. -/
theorem unload_inner (st1 : SessionState) (mid : String)
    (hk : ∀ e ∈ st1.assetSet, e.2.id = e.1)
    (hnd : (st1.assetSet.map Prod.fst).Nodup) :
    ((st1.assetSet.map Prod.snd).filter
        (fun a => a.creatorMessageId = some mid)).foldl
      (fun st2 a => { st2 with assetSet := removeEntry st2.assetSet a.id }) st1
    = { st1 with assetSet := (st1.assetSet.filter
        (fun e => ¬ (e.2.creatorMessageId = some mid))) } := by
  rw [foldl_removeAssets]
  congr 1
  apply List.filter_congr
  intro e he
  by_cases hm : e.2.creatorMessageId = some mid
  · have hmem : e.2 ∈ (st1.assetSet.map Prod.snd).filter
        (fun a => a.creatorMessageId = some mid) := by
      rw [List.mem_filter]
      exact ⟨List.mem_map.mpr ⟨e, he, rfl⟩, by simp [hm]⟩
    have : ((st1.assetSet.map Prod.snd).filter
        (fun a => a.creatorMessageId = some mid)).all
        (fun a => ¬ (e.1 = a.id)) = false := by
      rw [List.all_eq_false]
      exact ⟨e.2, hmem, by simp [hk e he]⟩
    rw [this]
    simp [hm]
  · have : ((st1.assetSet.map Prod.snd).filter
        (fun a => a.creatorMessageId = some mid)).all
        (fun a => ¬ (e.1 = a.id)) = true := by
      rw [List.all_eq_true]
      intro a ha
      rw [List.mem_filter] at ha
      obtain ⟨ea, hea, heq⟩ := List.mem_map.mp ha.1
      simp only [decide_eq_true_eq]
      intro hid
      have hkey : ea.1 = e.1 := by
        rw [← hk ea hea, heq, ← hid]
      have : ea = e :=
        List.inj_on_of_nodup_map hnd hea he hkey
      rw [this] at heq
      apply hm
      rw [heq]
      simpa using ha.2
    rw [this]
    simp [hm]
theorem sessionStateExt (a b : SessionState)
    (h1 : a.clientSet = b.clientSet) (h2 : a.actorSet = b.actorSet)
    (h3 : a.assetSet = b.assetSet) (h4 : a.assetCreatorSet = b.assetCreatorSet)
    (h5 : a.peerAuthoritative = b.peerAuthoritative) : a = b := by
  cases a
  cases b
  simp_all

theorem unload_outer (cs : List CreatorMsg) :
    ∀ (st : SessionState),
    (∀ e ∈ st.assetSet, e.2.id = e.1) → (st.assetSet.map Prod.fst).Nodup →
    cs.foldl
      (fun st creator =>
        let st1 := { st with
            assetCreatorSet := removeEntry st.assetCreatorSet creator.id }
        let assets :=
          (st1.assetSet.map Prod.snd).filter
            (fun a => a.creatorMessageId = some creator.id)
        assets.foldl
          (fun st2 a => { st2 with assetSet := removeEntry st2.assetSet a.id })
          st1) st
    = { st with
        assetCreatorSet := (st.assetCreatorSet.filter
          (fun e => cs.all (fun c => ¬ (e.1 = c.id)))),
        assetSet := (st.assetSet.filter
          (fun e => cs.all (fun c => ¬ (e.2.creatorMessageId = some c.id)))) } := by
  induction cs with
  | nil =>
    intro st _ _
    simp
  | cons c rest ih =>
    intro st hk hnd
    simp only [List.foldl_cons]
    rw [unload_inner { st with
        assetCreatorSet := removeEntry st.assetCreatorSet c.id } c.id hk hnd]
    rw [ih _ (fun e he => hk e (List.mem_of_mem_filter he))
      ((List.filter_sublist _ |>.map Prod.fst).nodup hnd)]
    apply sessionStateExt
    · rfl
    · rfl
    · show (st.assetSet.filter
          (fun e => ¬ (e.2.creatorMessageId = some c.id))).filter
          (fun e => rest.all (fun c2 => ¬ (e.2.creatorMessageId = some c2.id)))
        = st.assetSet.filter
          (fun e => (c :: rest).all (fun c2 => ¬ (e.2.creatorMessageId = some c2.id)))
      rw [List.filter_filter]
      apply List.filter_congr
      intro e _
      simp [List.all_cons, Bool.and_comm]
    · show (removeEntry st.assetCreatorSet c.id).filter
          (fun e => rest.all (fun c2 => ¬ (e.1 = c2.id)))
        = st.assetCreatorSet.filter
          (fun e => (c :: rest).all (fun c2 => ¬ (e.1 = c2.id)))
      unfold removeEntry
      rw [List.filter_filter]
      apply List.filter_congr
      intro e _
      simp [List.all_cons, Bool.and_comm]
    · rfl

/-- C7: unloading a container removes exactly the creators whose
`containerId` matches and exactly the assets whose `creatorMessageId`
points at one of them; all other creators, assets, and the remaining
session state are unchanged. -/
theorem cacheAssetUnload_spec (s : SessionState) (containerId : String)
    (hwf : SessionWf s) :
    (cacheAssetUnload s containerId).assetCreatorSet
      = s.assetCreatorSet.filter (fun e => ¬ (e.2.containerId = containerId)) ∧
    (cacheAssetUnload s containerId).assetSet
      = s.assetSet.filter (fun e =>
          match e.2.creatorMessageId with
          | some mid =>
              match lookupE s.assetCreatorSet mid with
              | some creator => ¬ (creator.containerId = containerId)
              | none => true
          | none => true) ∧
    (cacheAssetUnload s containerId).clientSet = s.clientSet ∧
    (cacheAssetUnload s containerId).actorSet = s.actorSet ∧
    (cacheAssetUnload s containerId).peerAuthoritative = s.peerAuthoritative := by
  unfold cacheAssetUnload
  rw [unload_outer _ s hwf.assetKeys hwf.assetNodup]
  refine ⟨?_, ?_, rfl, rfl, rfl⟩
  · apply List.filter_congr
    intro e he
    by_cases hc : e.2.containerId = containerId
    · have hmem : e.2 ∈ (s.assetCreatorSet.map Prod.snd).filter
          (fun c => c.containerId = containerId) :=
        List.mem_filter.mpr ⟨List.mem_map.mpr ⟨e, he, rfl⟩, by simp [hc]⟩
      have hall : ((s.assetCreatorSet.map Prod.snd).filter
          (fun c => c.containerId = containerId)).all
          (fun c => ¬ (e.1 = c.id)) = false := by
        rw [List.all_eq_false]
        exact ⟨e.2, hmem, by simp [hwf.creatorKeys e he]⟩
      rw [hall]
      simp [hc]
    · have hall : ((s.assetCreatorSet.map Prod.snd).filter
          (fun c => c.containerId = containerId)).all
          (fun c => ¬ (e.1 = c.id)) = true := by
        rw [List.all_eq_true]
        intro c hcmem
        rw [List.mem_filter] at hcmem
        obtain ⟨ec, hec, heq⟩ := List.mem_map.mp hcmem.1
        simp only [decide_eq_true_eq]
        intro hid
        have hkey : ec.1 = e.1 := by
          rw [← hwf.creatorKeys ec hec, heq, ← hid]
        have hee : ec = e :=
          List.inj_on_of_nodup_map hwf.creatorNodup hec he hkey
        apply hc
        rw [← hee, heq]
        simpa using hcmem.2
      rw [hall]
      simp [hc]
  · apply List.filter_congr
    intro e he
    cases hm : e.2.creatorMessageId with
    | none =>
      simp only
      rw [List.all_eq_true.mpr]
      intro c _
      simp [hm]
    | some mid =>
      simp only [hm]
      cases hcr : lookupE s.assetCreatorSet mid with
      | some creator =>
        have hcid : creator.id = mid := hwf.creatorKeys (mid, creator) (lookupE_mem hcr)
        by_cases hc : creator.containerId = containerId
        · have hmem : creator ∈ (s.assetCreatorSet.map Prod.snd).filter
              (fun c => c.containerId = containerId) :=
            List.mem_filter.mpr
              ⟨List.mem_map.mpr ⟨(mid, creator), lookupE_mem hcr, rfl⟩, by simp [hc]⟩
          have hall : ((s.assetCreatorSet.map Prod.snd).filter
              (fun c => c.containerId = containerId)).all
              (fun c => ¬ ((some mid : Option String) = some c.id)) = false := by
            rw [List.all_eq_false]
            exact ⟨creator, hmem, by simp [hcid]⟩
          rw [hall]
          simp [hc]
        · have hall : ((s.assetCreatorSet.map Prod.snd).filter
              (fun c => c.containerId = containerId)).all
              (fun c => ¬ ((some mid : Option String) = some c.id)) = true := by
            rw [List.all_eq_true]
            intro c hcmem
            rw [List.mem_filter] at hcmem
            obtain ⟨ec, hec, heq⟩ := List.mem_map.mp hcmem.1
            simp only [decide_eq_true_eq]
            intro hid
            have hck : c.id = mid := (Option.some.inj hid).symm
            have hkey : ec.1 = mid := by
              rw [← hwf.creatorKeys ec hec, heq, hck]
            have hlk2 : lookupE s.assetCreatorSet mid = some ec.2 := by
              rw [← hkey]
              exact mem_lookupE hwf.creatorNodup
                (by rw [(by exact rfl : (ec.1, ec.2) = ec)]; exact hec)
            rw [hcr] at hlk2
            apply hc
            rw [Option.some.inj hlk2, heq]
            simpa using hcmem.2
          rw [hall]
          simp [hc]
      | none =>
        have hall : ((s.assetCreatorSet.map Prod.snd).filter
            (fun c => c.containerId = containerId)).all
            (fun c => ¬ ((some mid : Option String) = some c.id)) = true := by
          rw [List.all_eq_true]
          intro c hcmem
          rw [List.mem_filter] at hcmem
          obtain ⟨ec, hec, heq⟩ := List.mem_map.mp hcmem.1
          simp only [decide_eq_true_eq]
          intro hid
          have hck : c.id = mid := (Option.some.inj hid).symm
          have hkey : mid ∈ s.assetCreatorSet.map Prod.fst := by
            rw [← hck, ← heq, hwf.creatorKeys ec hec]
            exact List.mem_map.mpr ⟨ec, hec, rfl⟩
          rw [lookupE_eq_none] at hcr
          exact hcr hkey
        rw [hall]
/-- Witness for C7: container `CT1` holds creators `M1` (assets `A`, `B`)
and `M2` (asset `C`); container `CT2` holds `M3` (asset `D`).  Unloading
`CT1` drops `M1`, `M2`, `A`, `B`, `C` and leaves `M3`, `D` untouched. -/
theorem cacheAssetUnload_spec_witness :
    SessionWf (SessionState.mk [] []
      [("A", ⟨"A", none, some "M1", none⟩), ("B", ⟨"B", none, some "M1", none⟩),
       ("C", ⟨"C", none, some "M2", none⟩), ("D", ⟨"D", none, some "M3", none⟩)]
      [("M1", ⟨"M1", "create-asset", "CT1", JVal.obj []⟩),
       ("M2", ⟨"M2", "load-assets", "CT1", JVal.obj []⟩),
       ("M3", ⟨"M3", "create-asset", "CT2", JVal.obj []⟩)] true) ∧
    (cacheAssetUnload (SessionState.mk [] []
      [("A", ⟨"A", none, some "M1", none⟩), ("B", ⟨"B", none, some "M1", none⟩),
       ("C", ⟨"C", none, some "M2", none⟩), ("D", ⟨"D", none, some "M3", none⟩)]
      [("M1", ⟨"M1", "create-asset", "CT1", JVal.obj []⟩),
       ("M2", ⟨"M2", "load-assets", "CT1", JVal.obj []⟩),
       ("M3", ⟨"M3", "create-asset", "CT2", JVal.obj []⟩)] true)
      "CT1").assetCreatorSet
      = (SessionState.mk [] []
      [("A", ⟨"A", none, some "M1", none⟩), ("B", ⟨"B", none, some "M1", none⟩),
       ("C", ⟨"C", none, some "M2", none⟩), ("D", ⟨"D", none, some "M3", none⟩)]
      [("M1", ⟨"M1", "create-asset", "CT1", JVal.obj []⟩),
       ("M2", ⟨"M2", "load-assets", "CT1", JVal.obj []⟩),
       ("M3", ⟨"M3", "create-asset", "CT2", JVal.obj []⟩)]
        true).assetCreatorSet.filter (fun e => ¬ (e.2.containerId = "CT1")) ∧
    (cacheAssetUnload (SessionState.mk [] []
      [("A", ⟨"A", none, some "M1", none⟩), ("B", ⟨"B", none, some "M1", none⟩),
       ("C", ⟨"C", none, some "M2", none⟩), ("D", ⟨"D", none, some "M3", none⟩)]
      [("M1", ⟨"M1", "create-asset", "CT1", JVal.obj []⟩),
       ("M2", ⟨"M2", "load-assets", "CT1", JVal.obj []⟩),
       ("M3", ⟨"M3", "create-asset", "CT2", JVal.obj []⟩)] true)
      "CT1").assetCreatorSet
      = [("M3", ⟨"M3", "create-asset", "CT2", JVal.obj []⟩)] ∧
    (cacheAssetUnload (SessionState.mk [] []
      [("A", ⟨"A", none, some "M1", none⟩), ("B", ⟨"B", none, some "M1", none⟩),
       ("C", ⟨"C", none, some "M2", none⟩), ("D", ⟨"D", none, some "M3", none⟩)]
      [("M1", ⟨"M1", "create-asset", "CT1", JVal.obj []⟩),
       ("M2", ⟨"M2", "load-assets", "CT1", JVal.obj []⟩),
       ("M3", ⟨"M3", "create-asset", "CT2", JVal.obj []⟩)] true)
      "CT1").assetSet
      = [("D", ⟨"D", none, some "M3", none⟩)] :=
  ⟨⟨by decide, by decide, by decide, by decide, by decide, by decide⟩,
   (cacheAssetUnload_spec (SessionState.mk [] []
      [("A", ⟨"A", none, some "M1", none⟩), ("B", ⟨"B", none, some "M1", none⟩),
       ("C", ⟨"C", none, some "M2", none⟩), ("D", ⟨"D", none, some "M3", none⟩)]
      [("M1", ⟨"M1", "create-asset", "CT1", JVal.obj []⟩),
       ("M2", ⟨"M2", "load-assets", "CT1", JVal.obj []⟩),
       ("M3", ⟨"M3", "create-asset", "CT2", JVal.obj []⟩)] true) "CT1"
      ⟨by decide, by decide, by decide, by decide, by decide, by decide⟩).1,
   rfl, rfl⟩
/-! ## Deep-merge lookup characterization (for C1 and C3) -/

theorem lookupE_overlayO (t s : List (String × JVal)) (k : String) :
    lookupE (overlayO t s) k = (lookupE t k).map
      (fun v => match lookupE s k with
        | some sv => mergeVal v sv
        | none => v) := by
  induction t with
  | nil => simp [overlayO, lookupE]
  | cons e rest ih =>
    obtain ⟨k1, v1⟩ := e
    rw [overlayO]
    rw [lookupE_cons, lookupE_cons]
    by_cases hk1 : k1 = k
    · subst hk1
      simp only [if_pos rfl, Option.map_some']
      refine congrArg some ?_
      split
      · rename_i sv hsv
        rw [hsv]
      · rename_i hnone
        rw [hnone]
    · simp [hk1, ih]

theorem getField_mergeVal_obj (t : JVal) (sf : List (String × JVal)) (k : String) :
    getField (mergeVal t (JVal.obj sf)) k =
      match getField t k, lookupE sf k with
      | some tv, some sv => some (mergeVal tv sv)
      | some tv, none => some tv
      | none, r => r := by
  cases t with
  | prim s0 =>
    rw [show mergeVal (JVal.prim s0) (JVal.obj sf) = JVal.obj sf from by
      simp [mergeVal]]
    rfl
  | arr elems =>
    rw [show mergeVal (JVal.arr elems) (JVal.obj sf) = JVal.obj sf from by
      simp [mergeVal]]
    rfl
  | obj tf =>
    rw [show mergeVal (JVal.obj tf) (JVal.obj sf)
        = JVal.obj (overlayO tf sf ++ sf.filter (fun e => (lookupE tf e.1).isNone))
      from by simp [mergeVal]]
    show lookupE (overlayO tf sf ++ sf.filter (fun e => (lookupE tf e.1).isNone)) k
      = _
    rw [lookupE_append, lookupE_overlayO,
      lookupE_filterP (fun x => (lookupE tf x).isNone)]
    cases htf : lookupE tf k with
    | some tv =>
      cases hsf : lookupE sf k <;> simp [getField, htf, hsf]
    | none =>
      cases hsf : lookupE sf k <;> simp [getField, htf, hsf]

/-- Merging with an object source always yields an object. -/
theorem mergeVal_obj_source (t : JVal) (sf : List (String × JVal)) :
    ∃ rf, mergeVal t (JVal.obj sf) = JVal.obj rf := by
  cases t with
  | prim s0 => exact ⟨sf, by simp [mergeVal]⟩
  | arr elems => exact ⟨sf, by simp [mergeVal]⟩
  | obj tf =>
    exact ⟨overlayO tf sf ++ sf.filter (fun e => (lookupE tf e.1).isNone),
      by simp [mergeVal]⟩

/-- A truthy update value merges to a truthy value. -/
theorem truthy_mergeVal (t s : JVal) (h : truthy s = true) :
    truthy (mergeVal t s) = true := by
  cases s with
  | prim s0 =>
    rw [show mergeVal t (JVal.prim s0) = JVal.prim s0 from by
      cases t <;> simp [mergeVal]]
    exact h
  | arr elems =>
    rw [show mergeVal t (JVal.arr elems) = JVal.arr elems from by
      cases t <;> simp [mergeVal]]
    rfl
  | obj sf =>
    obtain ⟨rf, hr⟩ := mergeVal_obj_source t sf
    rw [hr]
    rfl

theorem lookupE_mapAt (l : List (String × JVal)) (k k' : String) (f : JVal → JVal) :
    lookupE (l.map (fun e => if e.1 = k then (e.1, f e.2) else e)) k' =
      if k' = k then (lookupE l k').map f else lookupE l k' := by
  induction l with
  | nil => simp [lookupE]
  | cons e rest ih =>
    rw [List.map_cons, lookupE_cons, lookupE_cons]
    by_cases hek : e.1 = k
    · rw [if_pos hek]
      by_cases hek' : e.1 = k'
      · have hkk : k' = k := hek'.symm.trans hek
        simp [hek', hkk]
      · have hkk : ¬ (k' = k) := fun h => hek' (hek.trans h.symm)
        simp [hek', hkk, ih]
    · rw [if_neg hek]
      by_cases hek' : e.1 = k'
      · have hkk : ¬ (k' = k) := fun h => hek (hek'.trans h)
        simp [hek', hkk]
      · simp [hek', ih]

theorem getField_mapField_self (fs : List (String × JVal)) (k : String)
    (f : JVal → JVal) :
    getField (mapField (JVal.obj fs) k f) k = (lookupE fs k).map f := by
  show lookupE (fs.map (fun e => if e.1 = k then (e.1, f e.2) else e)) k
    = (lookupE fs k).map f
  rw [lookupE_mapAt]
  simp

theorem getField_mapField_ne (v : JVal) (k k' : String) (f : JVal → JVal)
    (h : ¬ (k' = k)) : getField (mapField v k f) k' = getField v k' := by
  cases v with
  | prim s0 => rfl
  | arr elems => rfl
  | obj fs =>
    show lookupE (fs.map (fun e => if e.1 = k then (e.1, f e.2) else e)) k'
      = lookupE fs k'
    rw [lookupE_mapAt]
    simp [h]

theorem getField_deleteField_self (v : JVal) (k : String) :
    getField (deleteField v k) k = none := by
  cases v with
  | prim s0 => rfl
  | arr elems => rfl
  | obj fs =>
    show lookupE (removeEntry fs k) k = none
    exact lookupE_removeEntry_self fs k

theorem getField_deleteField_ne (v : JVal) (k k' : String) (h : ¬ (k' = k)) :
    getField (deleteField v k) k' = getField v k' := by
  cases v with
  | prim s0 => rfl
  | arr elems => rfl
  | obj fs =>
    show lookupE (removeEntry fs k) k' = lookupE fs k'
    exact lookupE_removeEntry_ne fs k k' h
/-! ## Transform-space exclusion (C1) -/

theorem getFieldO_of_falsy (x : Option JVal) (h : truthyO x = false) (k : String) :
    getFieldO x k = none := by
  cases x with
  | none => rfl
  | some v =>
    cases v with
    | prim s0 => rfl
    | arr es => simp [truthyO, truthy] at h
    | obj fs => simp [truthyO, truthy] at h

theorem strip_b1 (merged U : JVal)
    (h1 : truthyO (getField U "transform") = true)
    (h2 : truthyO (getFieldO (getField U "transform") "app") = true)
    (h3 : truthyO (getFieldO (getField merged "transform") "local") = true) :
    stripStaleTransform merged U
      = mapField merged "transform" (fun tf =>
          mapField tf "local" (fun lv =>
            deleteField (deleteField lv "position") "rotation")) := by
  simp only [stripStaleTransform]
  rw [h1, h2, h3]
  rfl

theorem strip_b2 (merged U : JVal)
    (h1 : truthyO (getField U "transform") = true)
    (h2 : truthyO (getFieldO (getField U "transform") "app") = false)
    (h3 : truthyO (getFieldO (getField U "transform") "local") = true) :
    stripStaleTransform merged U
      = mapField merged "transform" (fun tf => deleteField tf "app") := by
  simp only [stripStaleTransform]
  rw [h1, h2, h3]
  rfl

theorem strip_none (merged U : JVal)
    (hc1 : (truthyO (getField U "transform") &&
        truthyO (getFieldO (getField U "transform") "app") &&
        truthyO (getFieldO (getField merged "transform") "local")) = false)
    (hc2 : (truthyO (getField U "transform") &&
        truthyO (getFieldO (getField U "transform") "local")) = false) :
    stripStaleTransform merged U = merged := by
  simp only [stripStaleTransform]
  rw [hc1, hc2]
  rfl

/-- A truthy field of the update's transform pins the JSON shape of the
update: an object payload whose `transform` is an object carrying that
truthy field. -/
theorem patch_tf_shape (U : JVal) (X : String)
    (h : truthyO (getFieldO (getField U "transform") X) = true) :
    ∃ uf pf xv, U = JVal.obj uf ∧
      lookupE uf "transform" = some (JVal.obj pf) ∧
      lookupE pf X = some xv ∧ truthy xv = true := by
  cases hptf : getField U "transform" with
  | none => rw [hptf] at h; simp [getFieldO, truthyO] at h
  | some pv =>
    rw [hptf] at h
    cases hu : U with
    | prim s0 => rw [hu] at hptf; simp [getField] at hptf
    | arr es => rw [hu] at hptf; simp [getField] at hptf
    | obj uf =>
      cases pv with
      | prim s0 => simp [getFieldO, getField, truthyO] at h
      | arr es => simp [getFieldO, getField, truthyO] at h
      | obj pf =>
        cases hx : lookupE pf X with
        | none =>
          rw [show getFieldO (some (JVal.obj pf)) X = lookupE pf X from rfl,
            hx] at h
          simp [truthyO] at h
        | some xv =>
          refine ⟨uf, pf, xv, rfl, ?_, hx, ?_⟩
          · rw [hu] at hptf
            exact hptf
          · rw [show getFieldO (some (JVal.obj pf)) X = lookupE pf X from rfl,
              hx] at h
            exact h

/-- Shape of the merged actor's `transform` once the update carries an
object-valued `transform`: the merged actor is an object whose `transform`
is an object, and a truthy `local` in the update's transform forces a
truthy `local` in the merged transform. -/
theorem merged_transform_shape (A : JVal) (uf pf : List (String × JVal))
    (hpftf : lookupE uf "transform" = some (JVal.obj pf)) :
    ∃ mf cf, mergeVal A (JVal.obj uf) = JVal.obj mf ∧
      lookupE mf "transform" = some (JVal.obj cf) ∧
      (truthyO (lookupE pf "local") = true →
        truthyO (lookupE cf "local") = true) := by
  obtain ⟨mf, hmf⟩ := mergeVal_obj_source A uf
  have hchar := getField_mergeVal_obj A uf "transform"
  rw [hpftf, hmf] at hchar
  cases hA : getField A "transform" with
  | none =>
    rw [hA] at hchar
    exact ⟨mf, pf, hmf, hchar, fun h => h⟩
  | some tv =>
    rw [hA] at hchar
    obtain ⟨cf, hcf⟩ := mergeVal_obj_source tv pf
    have hchar2 : lookupE mf "transform" = some (JVal.obj cf) := by
      have h0 : getField (JVal.obj mf) "transform"
          = some (mergeVal tv (JVal.obj pf)) := hchar
      rw [hcf] at h0
      exact h0
    refine ⟨mf, cf, hmf, hchar2, ?_⟩
    intro h
    cases hplv : lookupE pf "local" with
    | none => rw [hplv] at h; simp [truthyO] at h
    | some plv =>
      rw [hplv] at h
      have h2 := getField_mergeVal_obj tv pf "local"
      rw [hplv, hcf] at h2
      show truthyO (lookupE cf "local") = true
      rw [show lookupE cf "local" = getField (JVal.obj cf) "local" from rfl, h2]
      cases hA2 : getField tv "local" with
      | none => simpa [truthyO] using h
      | some tvl =>
        show truthyO (some (mergeVal tvl plv)) = true
        simpa [truthyO] using truthy_mergeVal tvl plv (by simpa [truthyO] using h)
/-- C1: after `cacheActorUpdateMessage` merges an update into a cached
actor, the transform-space exclusion holds: if the update carries a truthy
`transform.app`, the cached transform has no `local.position` and no
`local.rotation`; otherwise, if it carries a truthy `transform.local`, the
cached transform has no `app`. -/
theorem cacheActorUpdate_transform_exclusion (s : SessionState) (m : ActorMsg)
    (sa : SyncActorM)
    (hlk : lookupE s.actorSet (jstr (getField m.actor "id")) = some sa) :
    ∃ sa', lookupE (cacheActorUpdateMessage s m).actorSet
        (jstr (getField m.actor "id")) = some sa' ∧
      sa'.initMessage.actor
        = stripStaleTransform (mergeVal sa.initMessage.actor m.actor) m.actor ∧
      (truthyO (getFieldO (getField m.actor "transform") "app") = true →
        getFieldO (getFieldO (getField sa'.initMessage.actor "transform") "local")
          "position" = none ∧
        getFieldO (getFieldO (getField sa'.initMessage.actor "transform") "local")
          "rotation" = none) ∧
      (truthyO (getFieldO (getField m.actor "transform") "app") = false →
        truthyO (getFieldO (getField m.actor "transform") "local") = true →
        getFieldO (getField sa'.initMessage.actor "transform") "app" = none) := by
  refine ⟨{ sa with initMessage := { sa.initMessage with
      actor := stripStaleTransform (mergeVal sa.initMessage.actor m.actor)
        m.actor } }, ?_, rfl, ?_, ?_⟩
  · simp only [cacheActorUpdateMessage, hlk]
    exact lookupE_setEntry_self _ _ _
  · intro hApp
    obtain ⟨uf, pf, av, hU, hpftf, hav, havT⟩ := patch_tf_shape m.actor "app" hApp
    obtain ⟨mf, cf, hmf, hmftf, hlocT⟩ :=
      merged_transform_shape sa.initMessage.actor uf pf hpftf
    show getFieldO (getFieldO (getField
        (stripStaleTransform (mergeVal sa.initMessage.actor m.actor) m.actor)
        "transform") "local") "position" = none ∧
      getFieldO (getFieldO (getField
        (stripStaleTransform (mergeVal sa.initMessage.actor m.actor) m.actor)
        "transform") "local") "rotation" = none
    rw [hU]
    have h1 : truthyO (getField (JVal.obj uf) "transform") = true := by
      show truthyO (lookupE uf "transform") = true
      rw [hpftf]
      rfl
    have h2 : truthyO (getFieldO (getField (JVal.obj uf) "transform") "app")
        = true := by
      show truthyO (getFieldO (lookupE uf "transform") "app") = true
      rw [hpftf]
      show truthyO (lookupE pf "app") = true
      rw [hav]
      exact havT
    by_cases hloc : truthyO (lookupE cf "local") = true
    · have h3 : truthyO (getFieldO (getField
          (mergeVal sa.initMessage.actor (JVal.obj uf)) "transform") "local")
          = true := by
        rw [hmf]
        show truthyO (getFieldO (lookupE mf "transform") "local") = true
        rw [hmftf]
        exact hloc
      rw [strip_b1 _ _ h1 h2 h3, hmf]
      rw [getField_mapField_self mf "transform" _, hmftf]
      simp only [Option.map_some']
      show getFieldO (getField (mapField (JVal.obj cf) "local"
          (fun lv => deleteField (deleteField lv "position") "rotation"))
          "local") "position" = none ∧
        getFieldO (getField (mapField (JVal.obj cf) "local"
          (fun lv => deleteField (deleteField lv "position") "rotation"))
          "local") "rotation" = none
      rw [getField_mapField_self cf "local" _]
      cases hclv : lookupE cf "local" with
      | none => exact ⟨rfl, rfl⟩
      | some lv =>
        simp only [Option.map_some']
        constructor
        · show getField (deleteField (deleteField lv "position") "rotation")
            "position" = none
          rw [getField_deleteField_ne _ _ _ (by decide)]
          exact getField_deleteField_self lv "position"
        · exact getField_deleteField_self _ "rotation"
    · have hploc : truthyO (getFieldO (getField (JVal.obj uf) "transform")
          "local") = false := by
        by_cases hx : truthyO (getFieldO (getField (JVal.obj uf) "transform")
            "local") = true
        · exfalso
          apply hloc
          apply hlocT
          have hxx := hx
          rw [show getField (JVal.obj uf) "transform" = lookupE uf "transform"
            from rfl, hpftf] at hxx
          exact hxx
        · exact Bool.eq_false_iff.mpr hx
      have h3f : truthyO (getFieldO (getField
          (mergeVal sa.initMessage.actor (JVal.obj uf)) "transform") "local")
          = false := by
        rw [hmf]
        show truthyO (getFieldO (lookupE mf "transform") "local") = false
        rw [hmftf]
        exact Bool.eq_false_iff.mpr hloc
      have hc1 : (truthyO (getField (JVal.obj uf) "transform") &&
          truthyO (getFieldO (getField (JVal.obj uf) "transform") "app") &&
          truthyO (getFieldO (getField
            (mergeVal sa.initMessage.actor (JVal.obj uf)) "transform") "local"))
          = false := by
        rw [h3f]
        simp
      have hc2 : (truthyO (getField (JVal.obj uf) "transform") &&
          truthyO (getFieldO (getField (JVal.obj uf) "transform") "local"))
          = false := by
        rw [hploc]
        simp
      rw [strip_none _ _ hc1 hc2, hmf]
      show getFieldO (getFieldO (lookupE mf "transform") "local") "position"
          = none ∧
        getFieldO (getFieldO (lookupE mf "transform") "local") "rotation" = none
      rw [hmftf]
      show getFieldO (lookupE cf "local") "position" = none ∧
        getFieldO (lookupE cf "local") "rotation" = none
      have hf := Bool.eq_false_iff.mpr hloc
      exact ⟨getFieldO_of_falsy _ hf _, getFieldO_of_falsy _ hf _⟩
  · intro hApp hLoc
    obtain ⟨uf, pf, lv, hU, hpftf, hlv, hlvT⟩ :=
      patch_tf_shape m.actor "local" hLoc
    obtain ⟨mf, cf, hmf, hmftf, _⟩ :=
      merged_transform_shape sa.initMessage.actor uf pf hpftf
    show getFieldO (getField
        (stripStaleTransform (mergeVal sa.initMessage.actor m.actor) m.actor)
        "transform") "app" = none
    rw [hU] at hApp hLoc ⊢
    have h1 : truthyO (getField (JVal.obj uf) "transform") = true := by
      show truthyO (lookupE uf "transform") = true
      rw [hpftf]
      rfl
    rw [strip_b2 _ _ h1 hApp hLoc, hmf]
    rw [getField_mapField_self mf "transform" (fun tf => deleteField tf "app"),
      hmftf]
    simp only [Option.map_some']
    show getField (deleteField (JVal.obj cf) "app") "app" = none
    exact getField_deleteField_self _ _
/-- Witness for C1, the spec's transform-space conflict scenario: the
cached actor holds `transform.local.position = P`,
`transform.local.rotation = R`; an update with
`transform.app = (position Pp, rotation Rp)` arrives; afterwards the cache
holds `transform.app` and no `local.position` / `local.rotation`. -/
theorem cacheActorUpdate_transform_exclusion_witness :
    lookupE (SessionState.mk [] [("A1", ⟨"A1", none, ⟨"m1", "create-actor",
        JVal.obj [("id", JVal.prim "A1"), ("transform", JVal.obj [("local",
          JVal.obj [("position", JVal.prim "P"), ("rotation", JVal.prim "R")])])],
        JVal.obj []⟩⟩)] [] [] true).actorSet
      (jstr (getField (JVal.obj [("id", JVal.prim "A1"), ("transform",
        JVal.obj [("app", JVal.obj [("position", JVal.prim "Pp"),
          ("rotation", JVal.prim "Rp")])])]) "id"))
      = some ⟨"A1", none, ⟨"m1", "create-actor",
        JVal.obj [("id", JVal.prim "A1"), ("transform", JVal.obj [("local",
          JVal.obj [("position", JVal.prim "P"), ("rotation", JVal.prim "R")])])],
        JVal.obj []⟩⟩ ∧
    (∃ sa', lookupE (cacheActorUpdateMessage
        (SessionState.mk [] [("A1", ⟨"A1", none, ⟨"m1", "create-actor",
          JVal.obj [("id", JVal.prim "A1"), ("transform", JVal.obj [("local",
            JVal.obj [("position", JVal.prim "P"),
              ("rotation", JVal.prim "R")])])],
          JVal.obj []⟩⟩)] [] [] true)
        ⟨"m2", "actor-update",
          JVal.obj [("id", JVal.prim "A1"), ("transform",
            JVal.obj [("app", JVal.obj [("position", JVal.prim "Pp"),
              ("rotation", JVal.prim "Rp")])])],
          JVal.obj []⟩).actorSet
        (jstr (getField (JVal.obj [("id", JVal.prim "A1"), ("transform",
          JVal.obj [("app", JVal.obj [("position", JVal.prim "Pp"),
            ("rotation", JVal.prim "Rp")])])]) "id")) = some sa' ∧
      sa'.initMessage.actor = stripStaleTransform
        (mergeVal (JVal.obj [("id", JVal.prim "A1"), ("transform",
          JVal.obj [("local", JVal.obj [("position", JVal.prim "P"),
            ("rotation", JVal.prim "R")])])])
         (JVal.obj [("id", JVal.prim "A1"), ("transform",
          JVal.obj [("app", JVal.obj [("position", JVal.prim "Pp"),
            ("rotation", JVal.prim "Rp")])])]))
        (JVal.obj [("id", JVal.prim "A1"), ("transform",
          JVal.obj [("app", JVal.obj [("position", JVal.prim "Pp"),
            ("rotation", JVal.prim "Rp")])])]) ∧
      (truthyO (getFieldO (getField (JVal.obj [("id", JVal.prim "A1"),
          ("transform", JVal.obj [("app", JVal.obj [("position", JVal.prim "Pp"),
            ("rotation", JVal.prim "Rp")])])]) "transform") "app") = true →
        getFieldO (getFieldO (getField sa'.initMessage.actor "transform")
          "local") "position" = none ∧
        getFieldO (getFieldO (getField sa'.initMessage.actor "transform")
          "local") "rotation" = none) ∧
      (truthyO (getFieldO (getField (JVal.obj [("id", JVal.prim "A1"),
          ("transform", JVal.obj [("app", JVal.obj [("position", JVal.prim "Pp"),
            ("rotation", JVal.prim "Rp")])])]) "transform") "app") = false →
        truthyO (getFieldO (getField (JVal.obj [("id", JVal.prim "A1"),
          ("transform", JVal.obj [("app", JVal.obj [("position", JVal.prim "Pp"),
            ("rotation", JVal.prim "Rp")])])]) "transform") "local") = true →
        getFieldO (getField sa'.initMessage.actor "transform") "app" = none)) :=
  ⟨rfl,
   cacheActorUpdate_transform_exclusion
     (SessionState.mk [] [("A1", ⟨"A1", none, ⟨"m1", "create-actor",
        JVal.obj [("id", JVal.prim "A1"), ("transform", JVal.obj [("local",
          JVal.obj [("position", JVal.prim "P"), ("rotation", JVal.prim "R")])])],
        JVal.obj []⟩⟩)] [] [] true)
     ⟨"m2", "actor-update",
       JVal.obj [("id", JVal.prim "A1"), ("transform",
         JVal.obj [("app", JVal.obj [("position", JVal.prim "Pp"),
           ("rotation", JVal.prim "Rp")])])],
       JVal.obj []⟩
     ⟨"A1", none, ⟨"m1", "create-actor",
       JVal.obj [("id", JVal.prim "A1"), ("transform", JVal.obj [("local",
         JVal.obj [("position", JVal.prim "P"), ("rotation", JVal.prim "R")])])],
       JVal.obj []⟩⟩ rfl⟩
/-! ## Deep-merge idempotence (C3) -/

theorem memS_iff (k : String) (l : List String) : memS k l = true ↔ k ∈ l := by
  induction l with
  | nil => simp [memS]
  | cons x rest ih => simp [memS, ih]

theorem nodupS_nodup {l : List String} (h : nodupS l = true) : l.Nodup := by
  induction l with
  | nil => simp
  | cons x rest ih =>
    simp only [nodupS, Bool.and_eq_true, decide_eq_true_eq] at h
    rw [List.nodup_cons]
    exact ⟨fun hm => h.1 ((memS_iff x rest).mpr hm), ih h.2⟩

theorem wfV_obj_parts {fs : List (String × JVal)} (h : wfV (JVal.obj fs) = true) :
    nodupS (fs.map Prod.fst) = true ∧ wfO fs = true := by
  rw [wfV] at h
  exact Bool.and_eq_true_iff.mp h

theorem wfO_mem {fs : List (String × JVal)} {k : String} {v : JVal}
    (h : wfO fs = true) (hm : (k, v) ∈ fs) : wfV v = true := by
  induction fs with
  | nil => simp at hm
  | cons e rest ih =>
    obtain ⟨k1, v1⟩ := e
    rw [wfO, Bool.and_eq_true_iff] at h
    rcases List.mem_cons.mp hm with h1 | h1
    · cases h1
      exact h.1
    · exact ih h.2 h1

theorem wfO_lookup {fs : List (String × JVal)} {k : String} {v : JVal}
    (h : wfO fs = true) (hl : lookupE fs k = some v) : wfV v = true :=
  wfO_mem h (lookupE_mem hl)

theorem lookupE_isSome_of_mem {α : Type} {l : List (String × α)} {k : String}
    {v : α} (h : (k, v) ∈ l) : (lookupE l k).isSome = true := by
  induction l with
  | nil => simp at h
  | cons e rest ih =>
    rw [lookupE_cons]
    by_cases hek : e.1 = k
    · simp [hek]
    · rcases List.mem_cons.mp h with h1 | h1
      · rw [← h1] at hek
        simp at hek
      · simp [hek, ih h1]

theorem map_eq_self_mem {α : Type} {f : α → α} {l : List α} (h : l.map f = l) :
    ∀ e ∈ l, f e = e := by
  induction l with
  | nil => simp
  | cons x rest ih =>
    rw [List.map_cons, List.cons_eq_cons] at h
    intro e he
    rcases List.mem_cons.mp he with h1 | h1
    · rw [h1, h.1]
    · exact ih h.2 e h1

theorem mergeVal_nonobj (t s : JVal) (h : ∀ sf, ¬ (s = JVal.obj sf)) :
    mergeVal t s = s := by
  cases t with
  | prim s0 => simp [mergeVal]
  | arr es => simp [mergeVal]
  | obj tf =>
    cases s with
    | prim s1 => simp [mergeVal]
    | arr es1 => simp [mergeVal]
    | obj sf => exact absurd rfl (h sf)

theorem mergeVal_obj_obj (tf sf : List (String × JVal)) :
    mergeVal (JVal.obj tf) (JVal.obj sf)
      = JVal.obj (overlayO tf sf ++ sf.filter (fun e => (lookupE tf e.1).isNone)) := by
  simp [mergeVal]

theorem overlayO_eq_map (t s : List (String × JVal)) :
    overlayO t s = t.map (stepO s) := by
  induction t with
  | nil => simp [overlayO]
  | cons e rest ih =>
    obtain ⟨k, v⟩ := e
    rw [overlayO, ih, List.map_cons]
    have hv : (match h : lookupE s k with
        | some sv => mergeVal v sv
        | none => v)
        = (match lookupE s k with
        | some sv => mergeVal v sv
        | none => v) := by
      split
      · rename_i sv hsv
        rw [hsv]
      · rename_i hn
        rw [hn]
    rw [show stepO s (k, v) = (k, match lookupE s k with
        | some sv => mergeVal v sv
        | none => v) from rfl]
    rw [hv]

theorem stepO_fst (sf : List (String × JVal)) (e : String × JVal) :
    (stepO sf e).1 = e.1 := rfl

theorem extras_nil_of_cover (l sf : List (String × JVal))
    (hcov : ∀ e ∈ sf, (lookupE l e.1).isSome = true) :
    sf.filter (fun e => (lookupE l e.1).isNone) = [] := by
  rw [List.filter_eq_nil_iff]
  intro e he
  rw [Option.isNone_iff_eq_none]
  intro hn
  have h2 := hcov e he
  rw [hn] at h2
  simp at h2

theorem merge_no_extras (l sf : List (String × JVal))
    (hcov : ∀ e ∈ sf, (lookupE l e.1).isSome = true) :
    mergeVal (JVal.obj l) (JVal.obj sf) = JVal.obj (l.map (stepO sf)) := by
  rw [mergeVal_obj_obj, overlayO_eq_map, extras_nil_of_cover l sf hcov,
    List.append_nil]

theorem cover_merge {t : JVal} {sf l : List (String × JVal)}
    (h : mergeVal t (JVal.obj sf) = JVal.obj l) :
    ∀ e ∈ sf, (lookupE l e.1).isSome = true := by
  intro e he
  have hchar := getField_mergeVal_obj t sf e.1
  rw [h] at hchar
  obtain ⟨v', hv'⟩ := Option.isSome_iff_exists.mp (lookupE_isSome_of_mem
    (show (e.1, e.2) ∈ sf from he))
  rw [hv'] at hchar
  show (lookupE l e.1).isSome = true
  rw [show lookupE l e.1 = getField (JVal.obj l) e.1 from rfl, hchar]
  cases getField t e.1 <;> simp

/-- A well-formed value deep-merged with itself is unchanged. -/
theorem selfmerge : ∀ (n : Nat) (v : JVal), sizeOf v ≤ n → wfV v = true →
    mergeVal v v = v := by
  intro n
  induction n using Nat.strong_induction_on with
  | _ n ih =>
    intro v hsz hwf
    cases v with
    | prim s0 => simp [mergeVal]
    | arr es => simp [mergeVal]
    | obj fs =>
      obtain ⟨hnd, hwo⟩ := wfV_obj_parts hwf
      have hndf : (fs.map Prod.fst).Nodup := nodupS_nodup hnd
      rw [merge_no_extras fs fs (fun e he => lookupE_isSome_of_mem he)]
      refine congrArg JVal.obj ?_
      have hstab : ∀ e ∈ fs, stepO fs e = e := by
        intro e he
        have hwfe : wfV e.2 = true := wfO_mem hwo (show (e.1, e.2) ∈ fs from he)
        have hsze : sizeOf e.2 < n := by
          have h1 : sizeOf e < sizeOf fs := List.sizeOf_lt_of_mem he
          have h2 : sizeOf e.2 + 1 ≤ sizeOf e := by
            obtain ⟨k, v⟩ := e
            simp only [Prod.mk.sizeOf_spec]
            omega
          have h3 : sizeOf fs + 1 ≤ sizeOf (JVal.obj fs) := by
            simp only [JVal.obj.sizeOf_spec]
            omega
          omega
        unfold stepO
        rw [mem_lookupE hndf (show (e.1, e.2) ∈ fs from he)]
        show (e.1, mergeVal e.2 e.2) = e
        rw [ih (sizeOf e.2) hsze e.2 (Nat.le_refl _) hwfe]
      have hmap : fs.map (stepO fs) = fs.map id :=
        List.map_congr_left (fun e he => hstab e he)
      rw [hmap, List.map_id]
/-- Every field of a deep-merge result absorbs a further overlay step from
the same well-formed source. -/
theorem stable_of_merge : ∀ (n : Nat) (sf : List (String × JVal)), sizeOf sf ≤ n →
    wfV (JVal.obj sf) = true → ∀ (t : JVal) (l : List (String × JVal)),
    mergeVal t (JVal.obj sf) = JVal.obj l → ∀ e ∈ l, stepO sf e = e := by
  intro n
  induction n using Nat.strong_induction_on with
  | _ n ih =>
    intro sf hsz hwf t l hl e he
    obtain ⟨hnd, hwo⟩ := wfV_obj_parts hwf
    have hndf := nodupS_nodup hnd
    have hself : ∀ e2 ∈ sf, stepO sf e2 = e2 := by
      intro e2 he2
      unfold stepO
      rw [mem_lookupE hndf (show (e2.1, e2.2) ∈ sf from he2)]
      show (e2.1, mergeVal e2.2 e2.2) = e2
      rw [selfmerge (sizeOf e2.2) e2.2 (Nat.le_refl _) (wfO_mem hwo he2)]
    cases t with
    | prim s0 =>
      have h0 : JVal.obj sf = JVal.obj l := by
        rw [← hl]
        simp [mergeVal]
      have h1 := JVal.obj.inj h0
      subst h1
      exact hself e he
    | arr es =>
      have h0 : JVal.obj sf = JVal.obj l := by
        rw [← hl]
        simp [mergeVal]
      have h1 := JVal.obj.inj h0
      subst h1
      exact hself e he
    | obj tf =>
      have hl2 : l = overlayO tf sf ++ sf.filter (fun e => (lookupE tf e.1).isNone) := by
        have h0 := hl
        rw [mergeVal_obj_obj] at h0
        exact (JVal.obj.inj h0).symm
      rw [hl2] at he
      rcases List.mem_append.mp he with hov | hex
      · rw [overlayO_eq_map] at hov
        obtain ⟨e0, he0, heq⟩ := List.mem_map.mp hov
        rw [← heq]
        cases hsk : lookupE sf e0.1 with
        | none =>
          have hs1 : stepO sf e0 = e0 := by
            unfold stepO
            rw [hsk]
          rw [hs1, hs1]
        | some sv =>
          have hwfsv : wfV sv = true := wfO_lookup hwo hsk
          have hsz_sv : sizeOf sv < sizeOf sf := lookupE_sizeOf hsk
          have hidem : mergeVal (mergeVal e0.2 sv) sv = mergeVal e0.2 sv := by
            cases sv with
            | prim s1 =>
              rw [mergeVal_nonobj (mergeVal e0.2 (JVal.prim s1)) (JVal.prim s1)
                  (fun _ h => JVal.noConfusion h),
                mergeVal_nonobj e0.2 (JVal.prim s1)
                  (fun _ h => JVal.noConfusion h)]
            | arr es1 =>
              rw [mergeVal_nonobj (mergeVal e0.2 (JVal.arr es1)) (JVal.arr es1)
                  (fun _ h => JVal.noConfusion h),
                mergeVal_nonobj e0.2 (JVal.arr es1)
                  (fun _ h => JVal.noConfusion h)]
            | obj svf =>
              obtain ⟨l', hl'⟩ := mergeVal_obj_source e0.2 svf
              rw [hl', merge_no_extras l' svf (cover_merge hl')]
              refine congrArg JVal.obj ?_
              have hszf : sizeOf svf < n := by
                have : sizeOf (JVal.obj svf) = 1 + sizeOf svf :=
                  JVal.obj.sizeOf_spec svf
                omega
              have hstab2 : ∀ e2 ∈ l', stepO svf e2 = e2 :=
                ih (sizeOf svf) hszf svf (Nat.le_refl _) hwfsv e0.2 l' hl'
              have hm : l'.map (stepO svf) = l'.map id :=
                List.map_congr_left (fun e2 he2 => hstab2 e2 he2)
              rw [hm, List.map_id]
          rw [show stepO sf e0 = (e0.1, mergeVal e0.2 sv) from by
            unfold stepO
            rw [hsk]]
          rw [show stepO sf (e0.1, mergeVal e0.2 sv)
              = (e0.1, mergeVal (mergeVal e0.2 sv) sv) from by
            unfold stepO
            rw [hsk]]
          rw [hidem]
      · exact hself e (List.mem_of_mem_filter hex)

/-- Deep-merging the same well-formed update twice equals merging it once. -/
theorem mergeVal_idem (s : JVal) (hwf : wfV s = true) (t : JVal) :
    mergeVal (mergeVal t s) s = mergeVal t s := by
  cases s with
  | prim s0 =>
    rw [mergeVal_nonobj (mergeVal t (JVal.prim s0)) (JVal.prim s0)
        (fun _ h => JVal.noConfusion h),
      mergeVal_nonobj t (JVal.prim s0) (fun _ h => JVal.noConfusion h)]
  | arr es =>
    rw [mergeVal_nonobj (mergeVal t (JVal.arr es)) (JVal.arr es)
        (fun _ h => JVal.noConfusion h),
      mergeVal_nonobj t (JVal.arr es) (fun _ h => JVal.noConfusion h)]
  | obj sf =>
    obtain ⟨l, hl⟩ := mergeVal_obj_source t sf
    rw [hl, merge_no_extras l sf (cover_merge hl)]
    refine congrArg JVal.obj ?_
    have hstab := stable_of_merge (sizeOf sf) sf (Nat.le_refl _) hwf t l hl
    have hm : l.map (stepO sf) = l.map id :=
      List.map_congr_left (fun e he => hstab e he)
    rw [hm, List.map_id]
theorem truthy_mergeVal_eq (t s : JVal) : truthy (mergeVal t s) = truthy s := by
  cases s with
  | prim s0 =>
    rw [mergeVal_nonobj t (JVal.prim s0) (fun _ h => JVal.noConfusion h)]
  | arr es =>
    rw [mergeVal_nonobj t (JVal.arr es) (fun _ h => JVal.noConfusion h)]
  | obj sf =>
    obtain ⟨l, hl⟩ := mergeVal_obj_source t sf
    rw [hl]
    rfl

theorem truthy_del (w : JVal) (k : String) : truthy (deleteField w k) = truthy w := by
  cases w <;> rfl

theorem truthy_del2 (w : JVal) : truthy (del2 w) = truthy w := by
  unfold del2
  rw [truthy_del, truthy_del]

theorem not_mem_keys_removeEntry {α : Type} (l : List (String × α)) (k : String) :
    k ∉ (removeEntry l k).map Prod.fst := by
  intro hmem
  obtain ⟨e, he, heq⟩ := List.mem_map.mp hmem
  unfold removeEntry at he
  rw [List.mem_filter] at he
  have := he.2
  rw [heq] at this
  simp at this

theorem removeEntry_idem {α : Type} (l : List (String × α)) (k : String) :
    removeEntry (removeEntry l k) k = removeEntry l k :=
  removeEntry_of_not_mem (not_mem_keys_removeEntry l k)

theorem removeEntry_append {α : Type} (a b : List (String × α)) (k : String) :
    removeEntry (a ++ b) k = removeEntry a k ++ removeEntry b k :=
  List.filter_append a b

theorem removeEntry_comm {α : Type} (l : List (String × α)) (k k' : String) :
    removeEntry (removeEntry l k) k' = removeEntry (removeEntry l k') k := by
  unfold removeEntry
  rw [List.filter_filter, List.filter_filter]
  apply List.filter_congr
  intro e _
  rw [Bool.and_comm]

theorem del2_obj (fs : List (String × JVal)) :
    del2 (JVal.obj fs)
      = JVal.obj (removeEntry (removeEntry fs "position") "rotation") := rfl

theorem rEpr_idem {α : Type} (fs : List (String × α)) :
    removeEntry (removeEntry (removeEntry (removeEntry fs "position")
      "rotation") "position") "rotation"
    = removeEntry (removeEntry fs "position") "rotation" := by
  rw [removeEntry_comm (removeEntry fs "position") "rotation" "position",
    removeEntry_idem fs "position",
    removeEntry_idem (removeEntry fs "position") "rotation"]

theorem del2_idem (w : JVal) : del2 (del2 w) = del2 w := by
  cases w with
  | prim s0 => rfl
  | arr es => rfl
  | obj fs =>
    rw [del2_obj, del2_obj]
    exact congrArg JVal.obj (rEpr_idem fs)

theorem mapField_obj (fs : List (String × JVal)) (k : String) (f : JVal → JVal) :
    mapField (JVal.obj fs) k f = JVal.obj (fs.map (setAt k f)) := rfl

theorem setAt_fst (k : String) (f : JVal → JVal) (e : String × JVal) :
    (setAt k f e).1 = e.1 := by
  unfold setAt
  split <;> rfl

theorem setAt_of_ne (k : String) (f : JVal → JVal) (e : String × JVal)
    (h : ¬ (e.1 = k)) : setAt k f e = e := by
  unfold setAt
  rw [if_neg h]

theorem setAt_of_eq (k : String) (f : JVal → JVal) (e : String × JVal)
    (h : e.1 = k) : setAt k f e = (e.1, f e.2) := by
  unfold setAt
  rw [if_pos h]

theorem lookupE_map_setAt (l : List (String × JVal)) (k k' : String)
    (f : JVal → JVal) :
    lookupE (l.map (setAt k f)) k' =
      if k' = k then (lookupE l k').map f else lookupE l k' :=
  lookupE_mapAt l k k' f

theorem stepO_of_none (sf : List (String × JVal)) (e : String × JVal)
    (h : lookupE sf e.1 = none) : stepO sf e = e := by
  unfold stepO
  rw [h]

theorem stepO_of_some (sf : List (String × JVal)) (e : String × JVal) {sv : JVal}
    (h : lookupE sf e.1 = some sv) : stepO sf e = (e.1, mergeVal e.2 sv) := by
  unfold stepO
  rw [h]

/-- A value that absorbs a well-formed patch still absorbs it, up to the
`position`/`rotation` deletions, after those deletions. -/
theorem absorb_del2 (w pv : JVal) (hwfpv : wfV pv = true)
    (habs : mergeVal w pv = w) : del2 (mergeVal (del2 w) pv) = del2 w := by
  cases pv with
  | prim s1 =>
    rw [mergeVal_nonobj (del2 w) (JVal.prim s1) (fun _ h => JVal.noConfusion h)]
    rw [mergeVal_nonobj w (JVal.prim s1) (fun _ h => JVal.noConfusion h)] at habs
    rw [habs]
  | arr es1 =>
    rw [mergeVal_nonobj (del2 w) (JVal.arr es1) (fun _ h => JVal.noConfusion h)]
    rw [mergeVal_nonobj w (JVal.arr es1) (fun _ h => JVal.noConfusion h)] at habs
    rw [habs]
  | obj pvf =>
    cases w with
    | prim s0 =>
      exfalso
      rw [show mergeVal (JVal.prim s0) (JVal.obj pvf) = JVal.obj pvf from by
        simp [mergeVal]] at habs
      exact JVal.noConfusion habs
    | arr es0 =>
      exfalso
      rw [show mergeVal (JVal.arr es0) (JVal.obj pvf) = JVal.obj pvf from by
        simp [mergeVal]] at habs
      exact JVal.noConfusion habs
    | obj wf2 =>
      rw [mergeVal_obj_obj, overlayO_eq_map] at habs
      have habs2 := JVal.obj.inj habs
      -- split the absorbed equation into the overlay and extras parts
      have hlen := congrArg List.length habs2
      rw [List.length_append, List.length_map] at hlen
      have hext : pvf.filter (fun e => (lookupE wf2 e.1).isNone) = [] := by
        cases hh : pvf.filter (fun e => (lookupE wf2 e.1).isNone) with
        | nil => rfl
        | cons x xs =>
          rw [hh, List.length_cons] at hlen
          omega
      rw [hext, List.append_nil] at habs2
      have hstab : ∀ e ∈ wf2, stepO pvf e = e := map_eq_self_mem habs2
      have hcov : ∀ e ∈ pvf, (lookupE wf2 e.1).isSome = true := by
        intro e he
        rw [List.filter_eq_nil_iff] at hext
        have := hext e he
        cases hx : lookupE wf2 e.1 with
        | none => rw [hx] at this; simp at this
        | some v => rfl
      -- the deleted form of the target
      rw [del2_obj]
      set wf2' := removeEntry (removeEntry wf2 "position") "rotation" with hwf2'
      have hsub : ∀ e ∈ wf2', e ∈ wf2 := by
        intro e he
        exact List.mem_of_mem_filter (List.mem_of_mem_filter he)
      -- merge of the deleted form: stable part plus only position/rotation extras
      rw [mergeVal_obj_obj, overlayO_eq_map]
      have hstab' : wf2'.map (stepO pvf) = wf2'.map id :=
        List.map_congr_left (fun e he => hstab e (hsub e he))
      rw [hstab', List.map_id]
      have hextkeys : ∀ e ∈ pvf.filter (fun e => (lookupE wf2' e.1).isNone),
          e.1 = "position" ∨ e.1 = "rotation" := by
        intro e he
        rw [List.mem_filter] at he
        by_cases hp : e.1 = "position"
        · exact Or.inl hp
        by_cases hr : e.1 = "rotation"
        · exact Or.inr hr
        exfalso
        have h1 : lookupE wf2' e.1 = lookupE wf2 e.1 := by
          rw [hwf2', lookupE_removeEntry_ne _ _ _ hr,
            lookupE_removeEntry_ne _ _ _ hp]
        have h2 := hcov e he.1
        rw [← h1] at h2
        rw [Option.isNone_iff_eq_none] at he
        rw [he.2] at h2
        simp at h2
      rw [del2_obj]
      refine congrArg JVal.obj ?_
      rw [removeEntry_append, removeEntry_append]
      have h3 : removeEntry (removeEntry wf2' "position") "rotation" = wf2' := by
        rw [hwf2']
        exact rEpr_idem wf2
      have h4 : removeEntry (removeEntry
          (pvf.filter (fun e => (lookupE wf2' e.1).isNone)) "position")
          "rotation" = [] := by
        rw [show removeEntry (removeEntry
            (pvf.filter (fun e => (lookupE wf2' e.1).isNone)) "position")
            "rotation"
          = (pvf.filter (fun e => (lookupE wf2' e.1).isNone)).filter
              (fun e => (¬ (e.1 = "rotation") : Bool) && (¬ (e.1 = "position") : Bool))
          from by
            unfold removeEntry
            rw [List.filter_filter]]
        rw [List.filter_eq_nil_iff]
        intro e he
        rcases hextkeys e he with h | h <;> simp [h]
      rw [h3, h4, List.append_nil]
theorem stepO_pair_some (sf : List (String × JVal)) (k : String) (v sv : JVal)
    (h : lookupE sf k = some sv) : stepO sf (k, v) = (k, mergeVal v sv) := by
  show (k, match lookupE sf k with
      | some sv => mergeVal v sv
      | none => v) = (k, mergeVal v sv)
  rw [h]

theorem stepO_pair_none (sf : List (String × JVal)) (k : String) (v : JVal)
    (h : lookupE sf k = none) : stepO sf (k, v) = (k, v) := by
  show (k, match lookupE sf k with
      | some sv => mergeVal v sv
      | none => v) = (k, v)
  rw [h]

theorem setAt_pair_eq (k : String) (f : JVal → JVal) (v : JVal) :
    setAt k f (k, v) = (k, f v) := by
  unfold setAt
  simp

theorem setAt_pair_ne (k k' : String) (f : JVal → JVal) (v : JVal)
    (h : ¬ (k' = k)) : setAt k f (k', v) = (k', v) := by
  unfold setAt
  simp [h]

theorem lookupE_map_stepO (l sf : List (String × JVal)) (k : String) :
    lookupE (l.map (stepO sf)) k = (lookupE l k).map
      (fun v => match lookupE sf k with
        | some sv => mergeVal v sv
        | none => v) := by
  rw [← overlayO_eq_map, lookupE_overlayO]

theorem wf_getField {v w : JVal} {k : String} (hwf : wfV v = true)
    (h : getField v k = some w) : wfV w = true := by
  cases v with
  | prim s0 => simp [getField] at h
  | arr es => simp [getField] at h
  | obj fs => exact wfO_lookup (wfV_obj_parts hwf).2 h

theorem truthyO_some_ex {x : Option JVal} (h : truthyO x = true) :
    ∃ v, x = some v ∧ truthy v = true := by
  cases x with
  | none => simp [truthyO] at h
  | some v => exact ⟨v, rfl, h⟩

theorem entry_snd_of_nodup {l : List (String × JVal)}
    (hnd : (l.map Prod.fst).Nodup) {e : String × JVal} (he : e ∈ l) {v : JVal}
    (hlk : lookupE l e.1 = some v) : e.2 = v := by
  have h0 := mem_lookupE hnd (show (e.1, e.2) ∈ l from he)
  rw [hlk] at h0
  exact (Option.some.inj h0).symm

theorem nodup_merge_keys {t : JVal} {sf l : List (String × JVal)}
    (hwt : wfV t = true) (hnds : (sf.map Prod.fst).Nodup)
    (hl : mergeVal t (JVal.obj sf) = JVal.obj l) : (l.map Prod.fst).Nodup := by
  cases t with
  | prim s0 =>
    have h0 : JVal.obj sf = JVal.obj l := by
      rw [← hl]
      simp [mergeVal]
    have h1 := JVal.obj.inj h0
    subst h1
    exact hnds
  | arr es =>
    have h0 : JVal.obj sf = JVal.obj l := by
      rw [← hl]
      simp [mergeVal]
    have h1 := JVal.obj.inj h0
    subst h1
    exact hnds
  | obj tf =>
    have h0 := hl
    rw [mergeVal_obj_obj] at h0
    have h1 := (JVal.obj.inj h0).symm
    subst h1
    rw [List.map_append]
    have hk1 : (overlayO tf sf).map Prod.fst = tf.map Prod.fst := by
      rw [overlayO_eq_map, List.map_map]
      exact List.map_congr_left (fun e _ => stepO_fst sf e)
    rw [hk1]
    refine List.Nodup.append (nodupS_nodup (wfV_obj_parts hwt).1) ?_ ?_
    · exact ((List.filter_sublist sf).map Prod.fst).nodup hnds
    · intro x hx1 hx2
      obtain ⟨e, he, heq⟩ := List.mem_map.mp hx2
      rw [List.mem_filter] at he
      rw [Option.isNone_iff_eq_none] at he
      rw [lookupE_eq_none] at he
      rw [heq] at he
      exact he.2 hx1

/-- Re-stripping and re-merging `transform.local` is stable: merging the
update's transform into an already merged-and-stripped transform and
stripping again gives the stripped transform back. -/
theorem tf_step1 (cf pf : List (String × JVal))
    (hwfpf : wfV (JVal.obj pf) = true)
    (hstab : ∀ e ∈ cf, stepO pf e = e)
    (hcov : ∀ e ∈ pf, (lookupE cf e.1).isSome = true) :
    mapField (mergeVal (mapField (JVal.obj cf) "local" del2) (JVal.obj pf))
      "local" del2
    = mapField (JVal.obj cf) "local" del2 := by
  obtain ⟨hndp, hwop⟩ := wfV_obj_parts hwfpf
  rw [mapField_obj]
  have hcov' : ∀ e ∈ pf, (lookupE (cf.map (setAt "local" del2)) e.1).isSome
      = true := by
    intro e he
    rw [lookupE_map_setAt]
    by_cases h : e.1 = "local"
    · rw [if_pos h]
      have h2 := hcov e he
      cases hx : lookupE cf e.1 with
      | none =>
        rw [hx] at h2
        simp at h2
      | some v => simp
    · rw [if_neg h]
      exact hcov e he
  rw [merge_no_extras (cf.map (setAt "local" del2)) pf hcov']
  rw [mapField_obj, List.map_map, List.map_map]
  refine congrArg JVal.obj (List.map_congr_left ?_)
  intro e he
  obtain ⟨k0, v0⟩ := e
  show setAt "local" del2 (stepO pf (setAt "local" del2 (k0, v0)))
    = setAt "local" del2 (k0, v0)
  by_cases hk : k0 = "local"
  · subst hk
    rw [setAt_pair_eq]
    cases hpl : lookupE pf "local" with
    | none =>
      rw [stepO_pair_none pf "local" (del2 v0) hpl, setAt_pair_eq, del2_idem]
    | some pv =>
      rw [stepO_pair_some pf "local" (del2 v0) pv hpl, setAt_pair_eq]
      have h1 := hstab ("local", v0) he
      rw [stepO_pair_some pf "local" v0 pv hpl] at h1
      have habs : mergeVal v0 pv = v0 := congrArg Prod.snd h1
      rw [absorb_del2 v0 pv (wfO_lookup hwop hpl) habs]
  · rw [setAt_pair_ne _ _ _ _ hk, hstab (k0, v0) he, setAt_pair_ne _ _ _ _ hk]

/-- Re-stripping and re-merging `transform.app` likewise: deleting `app`,
merging the update's transform again, and deleting `app` again gives the
stripped transform back. -/
theorem tf_step2 (cf pf : List (String × JVal))
    (hstab : ∀ e ∈ cf, stepO pf e = e)
    (hcov : ∀ e ∈ pf, (lookupE cf e.1).isSome = true) :
    deleteField (mergeVal (deleteField (JVal.obj cf) "app") (JVal.obj pf)) "app"
      = deleteField (JVal.obj cf) "app" := by
  rw [show deleteField (JVal.obj cf) "app"
      = JVal.obj (removeEntry cf "app") from rfl]
  rw [mergeVal_obj_obj, overlayO_eq_map]
  have hstab'' : (removeEntry cf "app").map (stepO pf)
      = (removeEntry cf "app").map id :=
    List.map_congr_left (fun e he => hstab e (List.mem_of_mem_filter he))
  rw [hstab'', List.map_id]
  rw [show deleteField (JVal.obj (removeEntry cf "app" ++
      pf.filter (fun e => (lookupE (removeEntry cf "app") e.1).isNone))) "app"
    = JVal.obj (removeEntry (removeEntry cf "app" ++
      pf.filter (fun e => (lookupE (removeEntry cf "app") e.1).isNone)) "app")
    from rfl]
  refine congrArg JVal.obj ?_
  rw [removeEntry_append]
  have h1 : removeEntry (removeEntry cf "app") "app" = removeEntry cf "app" :=
    removeEntry_idem cf "app"
  have h2 : removeEntry (pf.filter
      (fun e => (lookupE (removeEntry cf "app") e.1).isNone)) "app" = [] := by
    have hall : ∀ e ∈ pf.filter
        (fun e => (lookupE (removeEntry cf "app") e.1).isNone), e.1 = "app" := by
      intro e he
      rw [List.mem_filter] at he
      by_cases ha : e.1 = "app"
      · exact ha
      · exfalso
        have h3 : lookupE (removeEntry cf "app") e.1 = lookupE cf e.1 :=
          lookupE_removeEntry_ne cf "app" e.1 ha
        have h4 := hcov e he.1
        rw [← h3] at h4
        rw [Option.isNone_iff_eq_none] at he
        rw [he.2] at h4
        simp at h4
    unfold removeEntry
    rw [List.filter_eq_nil_iff]
    intro e he
    simp [hall e he]
  rw [h1, h2, List.append_nil]
theorem setEntry_of_isSome {α : Type} (l : List (String × α)) (k : String)
    (v : α) (h : (lookupE l k).isSome = true) :
    setEntry l k v = l.map (fun e => if e.1 = k then (k, v) else e) := by
  unfold setEntry
  rw [h]
  simp

theorem setEntry_idem {α : Type} (l : List (String × α)) (k : String) (v : α) :
    setEntry (setEntry l k v) k v = setEntry l k v := by
  rw [setEntry_of_isSome (setEntry l k v) k v
    (by rw [lookupE_setEntry_self]; rfl)]
  have hpt : ∀ e ∈ setEntry l k v,
      (fun e => if e.1 = k then (k, v) else e) e = id e := by
    intro e he
    by_cases hek : e.1 = k
    · simp only [if_pos hek, id]
      have hev : e = (k, v) := by
        unfold setEntry at he
        split at he
        · rw [List.mem_map] at he
          obtain ⟨a, ha, hae⟩ := he
          by_cases hak : a.1 = k
          · rw [if_pos hak] at hae
            exact hae.symm
          · rw [if_neg hak] at hae
            rw [← hae] at hek
            exact absurd hek hak
        · rename_i hnone
          rw [List.mem_append] at he
          cases he with
          | inl h5 =>
            exfalso
            rw [Option.not_isSome_iff_eq_none, lookupE_eq_none] at hnone
            exact hnone (hek ▸ List.mem_map_of_mem Prod.fst h5)
          | inr h5 => simpa using h5
      rw [hev]
    · simp only [if_neg hek, id]
  rw [List.map_congr_left hpt, List.map_id]

theorem cover_map_setAt (l sf : List (String × JVal)) (k : String)
    (f : JVal → JVal)
    (hcov : ∀ e ∈ sf, (lookupE l e.1).isSome = true) :
    ∀ e ∈ sf, (lookupE (l.map (setAt k f)) e.1).isSome = true := by
  intro e he
  rw [lookupE_map_setAt]
  by_cases h : e.1 = k
  · rw [if_pos h]
    have h2 := hcov e he
    cases hx : lookupE l e.1 with
    | none =>
      rw [hx] at h2
      simp at h2
    | some v => simp
  · rw [if_neg h]
    exact hcov e he

/-- Decompose the `transform` field of a merged actor: it is itself a merge
of some well-formed value into the update's transform. -/
theorem merged_tf_decomp {A : JVal} (hwfA : wfV A = true)
    {uf pf mf : List (String × JVal)}
    (hpftf : lookupE uf "transform" = some (JVal.obj pf))
    (hmf : mergeVal A (JVal.obj uf) = JVal.obj mf) :
    ∃ w cf, wfV w = true ∧ mergeVal w (JVal.obj pf) = JVal.obj cf ∧
      lookupE mf "transform" = some (JVal.obj cf) := by
  have hchar := getField_mergeVal_obj A uf "transform"
  rw [hmf, hpftf] at hchar
  cases hA : getField A "transform" with
  | none =>
    rw [hA] at hchar
    have hchar2 : lookupE mf "transform" = some (JVal.obj pf) := hchar
    exact ⟨JVal.prim "", pf, by simp [wfV], by simp [mergeVal], hchar2⟩
  | some tv =>
    rw [hA] at hchar
    have hchar2 : lookupE mf "transform"
        = some (mergeVal tv (JVal.obj pf)) := hchar
    obtain ⟨cf, hcf⟩ := mergeVal_obj_source tv pf
    rw [hcf] at hchar2
    exact ⟨tv, cf, wf_getField hwfA hA, hcf, hchar2⟩

/-- Under stability of the merged transform fields, re-merging the update's
transform into a locally rewritten merged transform keeps its `local` field
truthy. -/
theorem merged_local_truthy (cf pf : List (String × JVal))
    (hstabp : ∀ e ∈ cf, stepO pf e = e)
    (hcloc : truthyO (lookupE cf "local") = true)
    (g : JVal → JVal) (hg : ∀ v, truthy (g v) = truthy v) :
    truthyO (getField (mergeVal (JVal.obj (cf.map (setAt "local" g)))
      (JVal.obj pf)) "local") = true := by
  obtain ⟨lv, hclv, htlv⟩ := truthyO_some_ex hcloc
  have hchar := getField_mergeVal_obj (JVal.obj (cf.map (setAt "local" g)))
    pf "local"
  have hcf' : getField (JVal.obj (cf.map (setAt "local" g))) "local"
      = some (g lv) := by
    show lookupE (cf.map (setAt "local" g)) "local" = some (g lv)
    rw [lookupE_map_setAt, if_pos rfl, hclv]
    rfl
  rw [hcf'] at hchar
  cases hpl : lookupE pf "local" with
  | none =>
    rw [hpl] at hchar
    rw [hchar]
    show truthy (g lv) = true
    rw [hg lv]
    exact htlv
  | some plv =>
    rw [hpl] at hchar
    rw [hchar]
    show truthy (mergeVal (g lv) plv) = true
    rw [truthy_mergeVal_eq]
    have h1 := hstabp ("local", lv) (lookupE_mem hclv)
    rw [stepO_pair_some pf "local" lv plv hpl] at h1
    have habs : mergeVal lv plv = lv := congrArg Prod.snd h1
    rw [← truthy_mergeVal_eq lv plv, habs]
    exact htlv

/-- The first stripping branch, with the inner deletion written as `del2`. -/
theorem strip_b1d (merged U : JVal)
    (h1 : truthyO (getField U "transform") = true)
    (h2 : truthyO (getFieldO (getField U "transform") "app") = true)
    (h3 : truthyO (getFieldO (getField merged "transform") "local") = true) :
    stripStaleTransform merged U
      = mapField merged "transform" (fun tfv => mapField tfv "local" del2) :=
  strip_b1 merged U h1 h2 h3
/-- Pointwise idempotence of strip-then-merge for the first branch:
rewriting `transform.local`, merging the update again, and rewriting again
is the same as rewriting once. -/
theorem branch1_map (mf uf pf cf : List (String × JVal))
    (hpftf : lookupE uf "transform" = some (JVal.obj pf))
    (hwfpf : wfV (JVal.obj pf) = true)
    (hndmf : (mf.map Prod.fst).Nodup)
    (hmftf : lookupE mf "transform" = some (JVal.obj cf))
    (hstabu : ∀ e ∈ mf, stepO uf e = e)
    (hstabp : ∀ e ∈ cf, stepO pf e = e)
    (hcovp : ∀ e ∈ pf, (lookupE cf e.1).isSome = true) :
    ((mf.map (setAt "transform" (fun tfv => mapField tfv "local" del2))).map
        (stepO uf)).map
        (setAt "transform" (fun tfv => mapField tfv "local" del2))
      = mf.map (setAt "transform" (fun tfv => mapField tfv "local" del2)) := by
  rw [List.map_map, List.map_map]
  refine List.map_congr_left ?_
  intro e he
  obtain ⟨k0, v0⟩ := e
  show setAt "transform" (fun tfv => mapField tfv "local" del2)
      (stepO uf (setAt "transform" (fun tfv => mapField tfv "local" del2)
        (k0, v0)))
    = setAt "transform" (fun tfv => mapField tfv "local" del2) (k0, v0)
  by_cases hk : k0 = "transform"
  · subst hk
    have hv0 : v0 = JVal.obj cf := entry_snd_of_nodup hndmf he hmftf
    subst hv0
    rw [setAt_pair_eq]
    rw [stepO_pair_some uf "transform" _ _ hpftf]
    rw [setAt_pair_eq]
    show ((("transform" : String),
        mapField (mergeVal (mapField (JVal.obj cf) "local" del2) (JVal.obj pf))
          "local" del2) : String × JVal)
      = ("transform", mapField (JVal.obj cf) "local" del2)
    rw [tf_step1 cf pf hwfpf hstabp hcovp]
  · rw [setAt_pair_ne _ _ _ _ hk, hstabu (k0, v0) he, setAt_pair_ne _ _ _ _ hk]

/-- Pointwise idempotence of strip-then-merge for the second branch:
deleting `transform.app`, merging the update again, and deleting again is
the same as deleting once. -/
theorem branch2_map (mf uf pf cf : List (String × JVal))
    (hpftf : lookupE uf "transform" = some (JVal.obj pf))
    (hndmf : (mf.map Prod.fst).Nodup)
    (hmftf : lookupE mf "transform" = some (JVal.obj cf))
    (hstabu : ∀ e ∈ mf, stepO uf e = e)
    (hstabp : ∀ e ∈ cf, stepO pf e = e)
    (hcovp : ∀ e ∈ pf, (lookupE cf e.1).isSome = true) :
    ((mf.map (setAt "transform" (fun tfv => deleteField tfv "app"))).map
        (stepO uf)).map
        (setAt "transform" (fun tfv => deleteField tfv "app"))
      = mf.map (setAt "transform" (fun tfv => deleteField tfv "app")) := by
  rw [List.map_map, List.map_map]
  refine List.map_congr_left ?_
  intro e he
  obtain ⟨k0, v0⟩ := e
  show setAt "transform" (fun tfv => deleteField tfv "app")
      (stepO uf (setAt "transform" (fun tfv => deleteField tfv "app")
        (k0, v0)))
    = setAt "transform" (fun tfv => deleteField tfv "app") (k0, v0)
  by_cases hk : k0 = "transform"
  · subst hk
    have hv0 : v0 = JVal.obj cf := entry_snd_of_nodup hndmf he hmftf
    subst hv0
    rw [setAt_pair_eq]
    rw [stepO_pair_some uf "transform" _ _ hpftf]
    rw [setAt_pair_eq]
    show ((("transform" : String),
        deleteField (mergeVal (deleteField (JVal.obj cf) "app") (JVal.obj pf))
          "app") : String × JVal)
      = ("transform", deleteField (JVal.obj cf) "app")
    rw [tf_step2 cf pf hstabp hcovp]
  · rw [setAt_pair_ne _ _ _ _ hk, hstabu (k0, v0) he, setAt_pair_ne _ _ _ _ hk]
/-- Applying the merge-then-strip step of `cacheActorUpdateMessage` twice
with the same update payload gives the same actor value as applying it
once. -/
theorem stripMerge_idem (A U : JVal) (hwfA : wfV A = true)
    (hwfU : wfV U = true) :
    stripStaleTransform (mergeVal (stripStaleTransform (mergeVal A U) U) U) U
      = stripStaleTransform (mergeVal A U) U := by
  by_cases hUt : truthyO (getField U "transform") = true
  · obtain ⟨utv, hutv, htr⟩ := truthyO_some_ex hUt
    cases U with
    | prim s0 => simp [getField] at hutv
    | arr es => simp [getField] at hutv
    | obj uf =>
      have hpftf0 : lookupE uf "transform" = some utv := hutv
      cases utv with
      | prim s1 =>
        have hid : ∀ M, stripStaleTransform M (JVal.obj uf) = M := by
          intro M
          refine strip_none M _ ?_ ?_
          · rw [hutv]
            simp [getFieldO, getField, truthyO]
          · rw [hutv]
            simp [getFieldO, getField, truthyO]
        simp only [hid]
        exact mergeVal_idem _ hwfU A
      | arr es1 =>
        have hid : ∀ M, stripStaleTransform M (JVal.obj uf) = M := by
          intro M
          refine strip_none M _ ?_ ?_
          · rw [hutv]
            simp [getFieldO, getField, truthyO]
          · rw [hutv]
            simp [getFieldO, getField, truthyO]
        simp only [hid]
        exact mergeVal_idem _ hwfU A
      | obj pf =>
        have hwfpf : wfV (JVal.obj pf) = true := wf_getField hwfU hutv
        obtain ⟨mf, hmf⟩ := mergeVal_obj_source A uf
        obtain ⟨w, cf, hwfw, hwcf, hmftf⟩ := merged_tf_decomp hwfA hpftf0 hmf
        have hndu := (wfV_obj_parts hwfU).1
        have hndmf : (mf.map Prod.fst).Nodup :=
          nodup_merge_keys hwfA (nodupS_nodup hndu) hmf
        have hstabu : ∀ e ∈ mf, stepO uf e = e :=
          stable_of_merge (sizeOf uf) uf (le_refl _) hwfU A mf hmf
        have hcovu : ∀ e ∈ uf, (lookupE mf e.1).isSome = true := cover_merge hmf
        have hstabp : ∀ e ∈ cf, stepO pf e = e :=
          stable_of_merge (sizeOf pf) pf (le_refl _) hwfpf w cf hwcf
        have hcovp : ∀ e ∈ pf, (lookupE cf e.1).isSome = true :=
          cover_merge hwcf
        by_cases happ : truthyO (lookupE pf "app") = true
        · by_cases hcloc : truthyO (lookupE cf "local") = true
          · -- first branch: strip transform.local of position and rotation
            have h2 : truthyO (getFieldO (getField (JVal.obj uf) "transform")
                "app") = true := by
              rw [hutv]
              exact happ
            have h3 : truthyO (getFieldO (getField (mergeVal A (JVal.obj uf))
                "transform") "local") = true := by
              rw [hmf]
              have h0 : getField (JVal.obj mf) "transform"
                  = some (JVal.obj cf) := hmftf
              rw [h0]
              exact hcloc
            rw [strip_b1d (mergeVal A (JVal.obj uf)) (JVal.obj uf) hUt h2 h3]
            rw [hmf]
            rw [mapField_obj]
            have hcovu' := cover_map_setAt mf uf "transform"
              (fun tfv => mapField tfv "local" del2) hcovu
            rw [merge_no_extras _ uf hcovu']
            have h3' : truthyO (getFieldO (getField (JVal.obj
                ((mf.map (setAt "transform"
                  (fun tfv => mapField tfv "local" del2))).map (stepO uf)))
                "transform") "local") = true := by
              have hl1 : lookupE (mf.map (setAt "transform"
                  (fun tfv => mapField tfv "local" del2))) "transform"
                  = some (mapField (JVal.obj cf) "local" del2) := by
                rw [lookupE_map_setAt, if_pos rfl, hmftf]
                rfl
              have hl2 : lookupE ((mf.map (setAt "transform"
                  (fun tfv => mapField tfv "local" del2))).map (stepO uf))
                  "transform"
                  = some (mergeVal (mapField (JVal.obj cf) "local" del2)
                      (JVal.obj pf)) := by
                rw [lookupE_map_stepO, hl1, hpftf0]
                rfl
              show truthyO (getFieldO (lookupE ((mf.map (setAt "transform"
                  (fun tfv => mapField tfv "local" del2))).map (stepO uf))
                  "transform") "local") = true
              rw [hl2]
              show truthyO (getField (mergeVal (mapField (JVal.obj cf)
                  "local" del2) (JVal.obj pf)) "local") = true
              rw [mapField_obj]
              exact merged_local_truthy cf pf hstabp hcloc del2 truthy_del2
            rw [strip_b1d _ _ hUt h2 h3']
            rw [mapField_obj]
            exact congrArg JVal.obj (branch1_map mf uf pf cf hpftf0 hwfpf
              hndmf hmftf hstabu hstabp hcovp)
          · -- app present but merged local empty: no branch fires
            rw [Bool.not_eq_true] at hcloc
            have hploc : truthyO (lookupE pf "local") = false := by
              cases hpl : lookupE pf "local" with
              | none => rfl
              | some plv =>
                have hchar := getField_mergeVal_obj w pf "local"
                rw [hwcf, hpl] at hchar
                cases hwl : getField w "local" with
                | none =>
                  rw [hwl] at hchar
                  have h0 : lookupE cf "local" = some plv := hchar
                  rw [h0] at hcloc
                  exact hcloc
                | some wl =>
                  rw [hwl] at hchar
                  have h0 : lookupE cf "local"
                      = some (mergeVal wl plv) := hchar
                  rw [h0] at hcloc
                  show truthy plv = false
                  rw [← truthy_mergeVal_eq wl plv]
                  exact hcloc
            have hc1 : (truthyO (getField (JVal.obj uf) "transform") &&
                truthyO (getFieldO (getField (JVal.obj uf) "transform") "app")
                && truthyO (getFieldO (getField (mergeVal A (JVal.obj uf))
                  "transform") "local")) = false := by
              rw [hmf]
              have h0 : getField (JVal.obj mf) "transform"
                  = some (JVal.obj cf) := hmftf
              rw [h0]
              show (truthyO (getField (JVal.obj uf) "transform") &&
                truthyO (getFieldO (getField (JVal.obj uf) "transform") "app")
                && truthyO (lookupE cf "local")) = false
              rw [hcloc]
              simp
            have hc2 : (truthyO (getField (JVal.obj uf) "transform") &&
                truthyO (getFieldO (getField (JVal.obj uf) "transform")
                  "local")) = false := by
              rw [hutv]
              show (truthyO (some (JVal.obj pf))
                && truthyO (lookupE pf "local")) = false
              rw [hploc]
              simp
            rw [strip_none _ _ hc1 hc2, mergeVal_idem _ hwfU A,
              strip_none _ _ hc1 hc2]
        · rw [Bool.not_eq_true] at happ
          by_cases hploc : truthyO (lookupE pf "local") = true
          · -- second branch: delete transform.app
            have h2b : truthyO (getFieldO (getField (JVal.obj uf) "transform")
                "app") = false := by
              rw [hutv]
              exact happ
            have h3b : truthyO (getFieldO (getField (JVal.obj uf) "transform")
                "local") = true := by
              rw [hutv]
              exact hploc
            rw [strip_b2 (mergeVal A (JVal.obj uf)) (JVal.obj uf) hUt h2b h3b]
            rw [hmf]
            rw [mapField_obj]
            have hcovu'' := cover_map_setAt mf uf "transform"
              (fun tfv => deleteField tfv "app") hcovu
            rw [merge_no_extras _ uf hcovu'']
            rw [strip_b2 _ _ hUt h2b h3b]
            rw [mapField_obj]
            exact congrArg JVal.obj (branch2_map mf uf pf cf hpftf0
              hndmf hmftf hstabu hstabp hcovp)
          · -- neither app nor local present in the update: no branch fires
            rw [Bool.not_eq_true] at hploc
            have hc1 : (truthyO (getField (JVal.obj uf) "transform") &&
                truthyO (getFieldO (getField (JVal.obj uf) "transform") "app")
                && truthyO (getFieldO (getField (mergeVal A (JVal.obj uf))
                  "transform") "local")) = false := by
              rw [hutv]
              show (truthyO (some (JVal.obj pf)) && truthyO (lookupE pf "app")
                && truthyO (getFieldO (getField (mergeVal A (JVal.obj uf))
                  "transform") "local")) = false
              rw [happ]
              simp
            have hc2 : (truthyO (getField (JVal.obj uf) "transform") &&
                truthyO (getFieldO (getField (JVal.obj uf) "transform")
                  "local")) = false := by
              rw [hutv]
              show (truthyO (some (JVal.obj pf))
                && truthyO (lookupE pf "local")) = false
              rw [hploc]
              simp
            rw [strip_none _ _ hc1 hc2, mergeVal_idem _ hwfU A,
              strip_none _ _ hc1 hc2]
  · rw [Bool.not_eq_true] at hUt
    have hid : ∀ M, stripStaleTransform M U = M := by
      intro M
      refine strip_none M U ?_ ?_
      · rw [hUt]
        simp
      · rw [hUt]
        simp
    simp only [hid]
    exact mergeVal_idem U hwfU A
/-- C3: For every cached actor state and every actor-update message,
applying `cacheActorUpdateMessage` (deep-merge of the update's actor into
the cached actor, followed by the transform-space strip) twice with the
same update yields the same cached state as applying it once.  The actor
payloads are assumed well-formed (objects parsed from JSON have pairwise
distinct keys at every level). -/
theorem cacheActorUpdate_idempotent (s : SessionState) (m : ActorMsg)
    (hwfU : wfV m.actor = true)
    (hwfS : ∀ sa, lookupE s.actorSet (jstr (getField m.actor "id")) = some sa →
      wfV sa.initMessage.actor = true) :
    cacheActorUpdateMessage (cacheActorUpdateMessage s m) m
      = cacheActorUpdateMessage s m := by
  cases h : lookupE s.actorSet (jstr (getField m.actor "id")) with
  | none =>
    have h1 : cacheActorUpdateMessage s m = s := by
      simp only [cacheActorUpdateMessage, h]
    rw [h1]
    exact h1
  | some sa =>
    have hwfA := hwfS sa h
    have h1 : cacheActorUpdateMessage s m = { s with actorSet :=
        (setEntry s.actorSet (jstr (getField m.actor "id"))
          { sa with initMessage := ({ sa.initMessage with actor :=
            (stripStaleTransform (mergeVal sa.initMessage.actor m.actor)
              m.actor) }) }) } := by
      simp only [cacheActorUpdateMessage, h]
    rw [h1]
    have h2 : lookupE (setEntry s.actorSet (jstr (getField m.actor "id"))
        { sa with initMessage := ({ sa.initMessage with actor :=
          (stripStaleTransform (mergeVal sa.initMessage.actor m.actor)
            m.actor) }) }) (jstr (getField m.actor "id"))
      = some { sa with initMessage := ({ sa.initMessage with actor :=
          (stripStaleTransform (mergeVal sa.initMessage.actor m.actor)
            m.actor) }) } := lookupE_setEntry_self _ _ _
    simp only [cacheActorUpdateMessage, h2]
    rw [stripMerge_idem sa.initMessage.actor m.actor hwfA hwfU]
    exact congrArg (fun l => { s with actorSet := l })
      (setEntry_idem s.actorSet (jstr (getField m.actor "id"))
        { sa with initMessage := ({ sa.initMessage with actor :=
          (stripStaleTransform (mergeVal sa.initMessage.actor m.actor)
            m.actor) }) })
theorem cacheActorUpdate_idempotent_witness :
    wfV c3m.actor = true ∧
    cacheActorUpdateMessage (cacheActorUpdateMessage c3s c3m) c3m
      = cacheActorUpdateMessage c3s c3m := by
  constructor
  · simp [c3m, wfV, wfO, nodupS, memS]
  · refine cacheActorUpdate_idempotent c3s c3m ?_ ?_
    · simp [c3m, wfV, wfO, nodupS, memS]
    · intro sa hsa
      simp only [c3s, c3m, getField, lookupE, jstr] at hsa
      rw [← Option.some.inj hsa]
      simp [wfV, wfO, nodupS, memS]
end MRE
